import Mathlib

/-!
Verification of the ACM problem tracker's record store, schema migrator and
git sync layer (`server.py`, `src/git_utils.py`).

Records read from the JSON container files are arbitrary string-keyed maps;
we embed them as association lists of `String × JVal` (`Rec`), with the
Python `dict` operations `get` / `__setitem__` / `pop` / `in` modelled by
`getK` / `setK` / `popK` / `containsK`.  Python `dict` equality is
order-insensitive key/value equality, which over association lists is
pointwise equality of `getK`; theorems comparing records are stated in that
form.

The JSON codec (`json.loads` / `json.dumps`) is an external library from the
repository's point of view; file contents are embedded at the granularity
the store observes them: `FileBytes.valid items` stands for bytes that parse
as a JSON array of records, `FileBytes.invalid raw` for bytes that fail
`json.loads`.  Python ints are unbounded, so no modular arithmetic is
needed; JSON numbers are embedded as `Int` (the data model only carries
integral counts).
-/

/-- Whitespace set of Python `str.strip()` (the ASCII part; the records only
carry ASCII whitespace). -/
def pyIsSpace (c : Char) : Bool :=
  c = ' ' || c = '\t' || c = '\n' || c = '\r' || c = '\x0b' || c = '\x0c'

/-- Python `str.strip()` on a character list: drop whitespace from the front,
then from the back. -/
def pytrimList (l : List Char) : List Char :=
  (l.dropWhile pyIsSpace).rdropWhile pyIsSpace

/-- Python `str.strip()`. -/
def pytrim (s : String) : String :=
  ⟨pytrimList s.data⟩

/-- Python `str.lower()` (ASCII; the sole use compares against "done"). -/
def pyLower (s : String) : String :=
  ⟨s.data.map Char.toLower⟩

theorem dropWhile_pytrimList (l : List Char) :
    ((l.dropWhile pyIsSpace).rdropWhile pyIsSpace).dropWhile pyIsSpace
      = (l.dropWhile pyIsSpace).rdropWhile pyIsSpace := by
  rcases hin : (l.dropWhile pyIsSpace).rdropWhile pyIsSpace with _ | ⟨c, cs⟩
  · simp
  · obtain ⟨t, ht⟩ := List.rdropWhile_prefix pyIsSpace (l.dropWhile pyIsSpace)
    rw [hin] at ht
    have hlen : 0 < (l.dropWhile pyIsSpace).length := by
      rw [← ht]; simp
    have hc : ¬ pyIsSpace ((l.dropWhile pyIsSpace).get ⟨0, hlen⟩) :=
      List.dropWhile_get_zero_not pyIsSpace l hlen
    have hhead : (l.dropWhile pyIsSpace).get ⟨0, hlen⟩ = c := by
      have : l.dropWhile pyIsSpace = c :: (cs ++ t) := by rw [← ht]; rfl
      simp [this]
    rw [hhead] at hc
    simp only [List.dropWhile]
    simp [hc]

theorem pytrimList_idem (l : List Char) :
    pytrimList (pytrimList l) = pytrimList l := by
  show ((pytrimList l).dropWhile pyIsSpace).rdropWhile pyIsSpace = pytrimList l
  unfold pytrimList
  rw [dropWhile_pytrimList, List.rdropWhile_idempotent]

theorem pytrim_idem (s : String) : pytrim (pytrim s) = pytrim s := by
  show (⟨pytrimList (pytrimList s.data)⟩ : String) = ⟨pytrimList s.data⟩
  rw [pytrimList_idem]

theorem pytrimList_eq_nil_iff (l : List Char) :
    pytrimList l = [] ↔ ∀ c ∈ l, pyIsSpace c := by
  unfold pytrimList
  rw [List.rdropWhile_eq_nil_iff]
  constructor
  · intro h c hc
    rcases List.mem_append.mp
        (by rw [List.takeWhile_append_dropWhile (p := pyIsSpace)]; exact hc) with h1 | h2
    · exact List.mem_takeWhile_imp h1
    · exact h c h2
  · intro h c hc
    exact h c ((List.dropWhile_suffix pyIsSpace).subset hc)

theorem pytrim_eq_empty_iff (s : String) :
    pytrim s = "" ↔ s.data.all pyIsSpace := by
  constructor
  · intro h
    have : pytrimList s.data = [] := congrArg String.data h
    rw [List.all_eq_true]
    exact fun c hc => (pytrimList_eq_nil_iff s.data).mp this c hc
  · intro h
    have : pytrimList s.data = [] :=
      (pytrimList_eq_nil_iff s.data).mpr (fun c hc => List.all_eq_true.mp h c hc)
    show (⟨pytrimList s.data⟩ : String) = ⟨[]⟩
    rw [this]

/-- JSON values as Python objects: `None`, `bool`, `int`, `str`, `list`,
`dict` (string keys, as produced by `json.loads`). -/
inductive JVal where
  | null : JVal
  | bool (b : Bool) : JVal
  | int (n : Int) : JVal
  | str (s : String) : JVal
  | arr (xs : List JVal) : JVal
  | obj (kvs : List (String × JVal)) : JVal

/-- Python `x is None` for a JSON-shaped value. -/
def JVal.isNull : JVal → Bool
  | .null => true
  | _ => false

/-- Python `x == s` for a string literal `s`: JSON-shaped values equal a
string only when they are the same string. -/
def JVal.eqStr : JVal → String → Bool
  | .str t, s => t = s
  | _, _ => false

/-- Python truthiness of a JSON-shaped value. -/
def pyTruthy : JVal → Bool
  | .null => false
  | .bool b => b
  | .int n => n != 0
  | .str s => s != ""
  | .arr xs => !xs.isEmpty
  | .obj kvs => !kvs.isEmpty

mutual

/-- Python `repr` of a JSON-shaped value (the shape of nested-container
reprs does not influence any claim; strings use the single-quote form). -/
def pyRepr : JVal → String
  | .null => "None"
  | .bool true => "True"
  | .bool false => "False"
  | .int n => toString n
  | .str s => "'" ++ s ++ "'"
  | .arr xs => "[" ++ String.intercalate ", " (pyReprList xs) ++ "]"
  | .obj kvs => "\x7b" ++ String.intercalate ", " (pyReprObj kvs) ++ "\x7d"

def pyReprList : List JVal → List String
  | [] => []
  | v :: vs => pyRepr v :: pyReprList vs

def pyReprObj : List (String × JVal) → List String
  | [] => []
  | (k, v) :: kvs => ("'" ++ k ++ "': " ++ pyRepr v) :: pyReprObj kvs

end

/-- Python `str(x)` for a JSON-shaped value. -/
def pyStr : JVal → String
  | .null => "None"
  | .bool true => "True"
  | .bool false => "False"
  | .int n => toString n
  | .str s => s
  | .arr xs => pyRepr (.arr xs)
  | .obj kvs => pyRepr (.obj kvs)

/-- Digit run acceptable to Python `int(str)`: nonempty digits, with single
underscores allowed strictly between digits. -/
def pyDigitRun : List Char → Bool
  | [] => false
  | [c] => c.isDigit
  | c :: '_' :: rest => c.isDigit && pyDigitRun rest
  | c :: rest => c.isDigit && pyDigitRun rest

/-- Numeric value of a digit run (underscores skipped). -/
def pyDigitVal (acc : Nat) : List Char → Nat
  | [] => acc
  | '_' :: rest => pyDigitVal acc rest
  | c :: rest => pyDigitVal (acc * 10 + (c.toNat - '0'.toNat)) rest

/-- Python `int(s)` on a string: optional surrounding whitespace, optional
sign, digit run. -/
def pyIntOfStr (s : String) : Option Int :=
  match pytrimList s.data with
  | '+' :: rest => if pyDigitRun rest then some (pyDigitVal 0 rest : Int) else none
  | '-' :: rest => if pyDigitRun rest then some (-(pyDigitVal 0 rest : Int)) else none
  | rest => if pyDigitRun rest then some (pyDigitVal 0 rest : Int) else none

/-- Python `int(x)` on a JSON-shaped value; `none` models the raised
`TypeError` / `ValueError`. -/
def pyInt : JVal → Option Int
  | .null => none
  | .bool b => some (if b then 1 else 0)
  | .int n => some n
  | .str s => pyIntOfStr s
  | .arr _ => none
  | .obj _ => none

/-- A raw record: a Python dict of string keys, in insertion order. -/
abbrev Rec := List (String × JVal)

/-- Python `rec.get(k)` / `rec[k]`: the value at the first matching key. -/
def getK : Rec → String → Option JVal
  | [], _ => none
  | (k, v) :: r, key => if k = key then some v else getK r key

/-- Python `rec.get(k, default)` with default `None`. -/
def getKD (r : Rec) (key : String) : JVal :=
  (getK r key).getD .null

/-- Python `k in rec`. -/
def containsK (r : Rec) (key : String) : Bool :=
  (getK r key).isSome

/-- Python `rec[k] = v`: replace in place if the key exists, else append. -/
def setK (r : Rec) (key : String) (v : JVal) : Rec :=
  if containsK r key then
    r.map (fun kv => if kv.1 = key then (key, v) else kv)
  else
    r ++ [(key, v)]

/-- Python `rec.pop(k, None)`, keeping only the resulting dict. -/
def popK (r : Rec) (key : String) : Rec :=
  r.filter (fun kv => kv.1 ≠ key)

theorem getK_popK (r : Rec) (key k : String) :
    getK (popK r key) k = if k = key then none else getK r k := by
  induction r with
  | nil => simp [popK, getK]
  | cons kv rest ih =>
      obtain ⟨k1, v1⟩ := kv
      by_cases h1 : k1 = key <;> by_cases h2 : k = key <;> by_cases h3 : k1 = k <;>
        simp_all [popK, List.filter_cons, getK]

theorem getK_map_set (r : Rec) (key k : String) (v : JVal) :
    getK (r.map (fun kv => if kv.1 = key then (key, v) else kv)) k
      = if k = key then (if (getK r key).isSome then some v else none)
        else getK r k := by
  induction r with
  | nil => simp [getK]
  | cons kv rest ih =>
      obtain ⟨k1, v1⟩ := kv
      simp only [List.map_cons]
      by_cases h1 : k1 = key
      · subst h1
        simp only [if_pos rfl]
        by_cases h2 : k = k1
        · subst h2
          simp [getK, ih]
        · have h2s : ¬ k1 = k := fun h => h2 h.symm
          simp [getK, h2, h2s, ih]
      · simp only [if_neg (show ¬ ((k1, v1).1 = key) from h1)]
        by_cases h3 : k1 = k
        · subst h3
          simp [getK, h1, ih]
        · simp [getK, h3, h1, ih]

theorem getK_append (r1 r2 : Rec) (k : String) :
    getK (r1 ++ r2) k = ((getK r1 k).or (getK r2 k)) := by
  induction r1 with
  | nil => simp [getK]
  | cons kv rest ih =>
      obtain ⟨k1, v1⟩ := kv
      by_cases h : k1 = k <;> simp [getK, h, ih]

theorem getK_setK (r : Rec) (key k : String) (v : JVal) :
    getK (setK r key v) k = if k = key then some v else getK r k := by
  unfold setK containsK
  by_cases hc : (getK r key).isSome
  · rw [if_pos hc, getK_map_set]
    by_cases h : k = key <;> simp [h, hc]
  · rw [if_neg hc]
    rw [getK_append]
    by_cases h : k = key
    · subst h
      rcases hg : getK r k with _ | w
      · simp [getK]
      · rw [hg] at hc; simp at hc
    · have h' : ¬ key = k := fun hh => h hh.symm
      rcases hg : getK r k with _ | w <;> simp [getK, h, h', hg]

theorem popK_eq_self (r : Rec) (key : String) (h : getK r key = none) :
    popK r key = r := by
  induction r with
  | nil => rfl
  | cons kv rest ih =>
      obtain ⟨k1, v1⟩ := kv
      by_cases h1 : k1 = key
      · subst h1; simp [getK] at h
      · simp only [getK, if_neg h1] at h
        have hstep : popK ((k1, v1) :: rest) key = (k1, v1) :: popK rest key := by
          simp [popK, List.filter_cons, h1]
        rw [hstep, ih h]

/-- Python `x or y` for JSON-shaped values. -/
def pyOrVal (v w : JVal) : JVal :=
  if pyTruthy v then v else w

/-- The three valid `unsolved_stage` labels (`server.py:146`). -/
def validStage (v : JVal) : Bool :=
  v.eqStr "未看题" || v.eqStr "已看题无思路" || v.eqStr "知道做法未实现"

/-- `str(x).strip() or None` applied to a maybe-`None` value, as in the
`unsolved_custom_label` and `assignee` normalization steps. -/
def strippedOrNull (v : JVal) : JVal :=
  if v.isNull then .null
  else if pytrim (pyStr v) = "" then .null else .str (pytrim (pyStr v))

/-- `normalize_record` step: default `solved` from the legacy `status` field
(`server.py:139-141`). -/
def normSolvedR (r : Rec) : Rec :=
  if containsK r "solved" then r
  else setK r "solved"
    (.bool (pyLower (pyStr (pyOrVal (getKD r "status") (.str ""))) == "done"))

/-- `normalize_record` step: default / validate `unsolved_stage`
(`server.py:142-147`). -/
def normStageR (r : Rec) : Rec :=
  if !containsK r "unsolved_stage" then setK r "unsolved_stage" .null
  else if validStage (getKD r "unsolved_stage") then r
  else setK r "unsolved_stage" .null

/-- `normalize_record` step: trim `unsolved_custom_label`, clearing it when
`solved` is truthy (`server.py:148-151`). -/
def normLabelR (r : Rec) : Rec :=
  setK r "unsolved_custom_label"
    (if pyTruthy (getKD r "solved") then .null
     else strippedOrNull (getKD r "unsolved_custom_label"))

/-- `normalize_record` step: default `tags` to `[]` when absent or `None`
(`server.py:152-153`). -/
def normTagsR (r : Rec) : Rec :=
  if !containsK r "tags" || (getKD r "tags").isNull then setK r "tags" (.arr [])
  else r

/-- `normalize_record` step: coerce `pass_count` to int, `None` on failure
(`server.py:154-158`). -/
def normPassR (r : Rec) : Rec :=
  if containsK r "pass_count" && !(getKD r "pass_count").isNull then
    match pyInt (getKD r "pass_count") with
    | some n => setK r "pass_count" (.int n)
    | none => setK r "pass_count" .null
  else r

/-- `normalize_record` step: migrate `assignee` from the popped `owner`
value and trim it (`server.py:159-164`). -/
def normAssigneeR (owner : JVal) (r : Rec) : Rec :=
  setK r "assignee"
    (strippedOrNull
      (if (getKD r "assignee").isNull && pyTruthy owner then owner
       else getKD r "assignee"))

/-- `normalize_record` step: final invariant enforcement — a truthy `solved`
clears both unsolved fields (`server.py:165-167`). -/
def normFinalR (r : Rec) : Rec :=
  if pyTruthy (getKD r "solved") then
    setK (setK r "unsolved_stage" .null) "unsolved_custom_label" .null
  else r

/-- `normalize_record` (`server.py:127-168`): pop `has_solution` and
`owner`, then run the normalization steps in source order. -/
def normalize_record (r : Rec) : Rec :=
  normFinalR (normAssigneeR (getKD (popK r "has_solution") "owner")
    (normPassR (normTagsR (normLabelR (normStageR (normSolvedR
      (popK (popK r "has_solution") "owner")))))))

/-- The dict observed through `get`: the extensional view of a record, over
which Python dict equality is pointwise equality. -/
def recGet (r : Rec) : String → Option JVal :=
  fun k => getK r k

/-- Functional update, mirroring `setK` on the extensional view. -/
def fset (g : String → Option JVal) (key : String) (v : JVal) :
    String → Option JVal :=
  fun k => if k = key then some v else g k

/-- Functional removal, mirroring `popK` on the extensional view. -/
def fdrop (g : String → Option JVal) (key : String) : String → Option JVal :=
  fun k => if k = key then none else g k

/-- `get` with `None` default on the extensional view. -/
def fgetD (g : String → Option JVal) (key : String) : JVal :=
  (g key).getD .null

def normSolvedF (g : String → Option JVal) : String → Option JVal :=
  if (g "solved").isSome then g
  else fset g "solved"
    (.bool (pyLower (pyStr (pyOrVal (fgetD g "status") (.str ""))) == "done"))

def normStageF (g : String → Option JVal) : String → Option JVal :=
  if !(g "unsolved_stage").isSome then fset g "unsolved_stage" .null
  else if validStage (fgetD g "unsolved_stage") then g
  else fset g "unsolved_stage" .null

def normLabelF (g : String → Option JVal) : String → Option JVal :=
  fset g "unsolved_custom_label"
    (if pyTruthy (fgetD g "solved") then .null
     else strippedOrNull (fgetD g "unsolved_custom_label"))

def normTagsF (g : String → Option JVal) : String → Option JVal :=
  if !(g "tags").isSome || (fgetD g "tags").isNull then fset g "tags" (.arr [])
  else g

def normPassF (g : String → Option JVal) : String → Option JVal :=
  if (g "pass_count").isSome && !(fgetD g "pass_count").isNull then
    match pyInt (fgetD g "pass_count") with
    | some n => fset g "pass_count" (.int n)
    | none => fset g "pass_count" .null
  else g

def normAssigneeF (owner : JVal) (g : String → Option JVal) :
    String → Option JVal :=
  fset g "assignee"
    (strippedOrNull
      (if (fgetD g "assignee").isNull && pyTruthy owner then owner
       else fgetD g "assignee"))

def normFinalF (g : String → Option JVal) : String → Option JVal :=
  if pyTruthy (fgetD g "solved") then
    fset (fset g "unsolved_stage" .null) "unsolved_custom_label" .null
  else g

/-- The extensional view of `normalize_record`: what every key reads after
normalization, as a function of what every key read before. -/
def normGet (g : String → Option JVal) : String → Option JVal :=
  normFinalF (normAssigneeF (fgetD (fdrop g "has_solution") "owner")
    (normPassF (normTagsF (normLabelF (normStageF (normSolvedF
      (fdrop (fdrop g "has_solution") "owner")))))))

theorem recGet_setK (r : Rec) (key : String) (v : JVal) :
    recGet (setK r key v) = fset (recGet r) key v := by
  funext k
  rw [recGet, getK_setK]
  rfl

theorem recGet_popK (r : Rec) (key : String) :
    recGet (popK r key) = fdrop (recGet r) key := by
  funext k
  rw [recGet, getK_popK]
  rfl

theorem recGet_apply (r : Rec) (k : String) : recGet r k = getK r k := rfl

theorem recGet_normSolvedR (r : Rec) :
    recGet (normSolvedR r) = normSolvedF (recGet r) := by
  unfold normSolvedR normSolvedF containsK getKD fgetD
  simp only [recGet_apply]
  by_cases h : (getK r "solved").isSome
  · rw [if_pos h, if_pos h]
  · rw [if_neg h, if_neg h, recGet_setK]

theorem recGet_normStageR (r : Rec) :
    recGet (normStageR r) = normStageF (recGet r) := by
  unfold normStageR normStageF containsK getKD fgetD
  simp only [recGet_apply]
  by_cases h : (!(getK r "unsolved_stage").isSome) = true
  · rw [if_pos h, if_pos h, recGet_setK]
  · rw [if_neg h, if_neg h]
    by_cases h2 : validStage ((getK r "unsolved_stage").getD .null) = true
    · rw [if_pos h2, if_pos h2]
    · rw [if_neg h2, if_neg h2, recGet_setK]

theorem recGet_normLabelR (r : Rec) :
    recGet (normLabelR r) = normLabelF (recGet r) := by
  unfold normLabelR normLabelF getKD fgetD
  simp only [recGet_apply]
  rw [recGet_setK]

theorem recGet_normTagsR (r : Rec) :
    recGet (normTagsR r) = normTagsF (recGet r) := by
  unfold normTagsR normTagsF containsK getKD fgetD
  simp only [recGet_apply]
  by_cases h : (!(getK r "tags").isSome || ((getK r "tags").getD .null).isNull) = true
  · rw [if_pos h, if_pos h, recGet_setK]
  · rw [if_neg h, if_neg h]

theorem recGet_normPassR (r : Rec) :
    recGet (normPassR r) = normPassF (recGet r) := by
  unfold normPassR normPassF containsK getKD fgetD
  simp only [recGet_apply]
  by_cases h : ((getK r "pass_count").isSome
      && !((getK r "pass_count").getD .null).isNull) = true
  · rw [if_pos h, if_pos h]
    rcases hp : pyInt ((getK r "pass_count").getD .null) with _ | n <;>
      rw [recGet_setK]
  · rw [if_neg h, if_neg h]

theorem recGet_normAssigneeR (owner : JVal) (r : Rec) :
    recGet (normAssigneeR owner r) = normAssigneeF owner (recGet r) := by
  unfold normAssigneeR normAssigneeF getKD fgetD
  simp only [recGet_apply]
  rw [recGet_setK]

theorem recGet_normFinalR (r : Rec) :
    recGet (normFinalR r) = normFinalF (recGet r) := by
  unfold normFinalR normFinalF getKD fgetD
  simp only [recGet_apply]
  by_cases h : pyTruthy ((getK r "solved").getD .null) = true
  · rw [if_pos h, if_pos h, recGet_setK, recGet_setK]
  · rw [if_neg h, if_neg h]

/-- Master lemma: `normalize_record` observed through `get` is `normGet` of
the input observed through `get`. -/
theorem recGet_normalize (r : Rec) :
    recGet (normalize_record r) = normGet (recGet r) := by
  unfold normalize_record normGet
  have howner : getKD (popK r "has_solution") "owner"
      = fgetD (fdrop (recGet r) "has_solution") "owner" := by
    rw [getKD, getK_popK]
    rfl
  rw [recGet_normFinalR, recGet_normAssigneeR, recGet_normPassR,
    recGet_normTagsR, recGet_normLabelR, recGet_normStageR,
    recGet_normSolvedR, recGet_popK, recGet_popK, howner]

theorem fset_other {g : String → Option JVal} {key : String} {v : JVal}
    {k : String} (h : ¬ k = key) : fset g key v k = g k := if_neg h

theorem fdrop_other {g : String → Option JVal} {key k : String}
    (h : ¬ k = key) : fdrop g key k = g k := if_neg h

theorem fset_self (g : String → Option JVal) (key : String) (v : JVal) :
    fset g key v key = some v := if_pos rfl

theorem fdrop_self (g : String → Option JVal) (key : String) :
    fdrop g key key = none := if_pos rfl

theorem fset_eq_self {g : String → Option JVal} {key : String} {v : JVal}
    (h : g key = some v) : fset g key v = g := by
  funext k
  unfold fset
  by_cases hk : k = key
  · subst hk
    rw [if_pos rfl]
    exact h.symm
  · rw [if_neg hk]

theorem fdrop_eq_self {g : String → Option JVal} {key : String}
    (h : g key = none) : fdrop g key = g := by
  funext k
  unfold fdrop
  by_cases hk : k = key
  · subst hk
    rw [if_pos rfl]
    exact h.symm
  · rw [if_neg hk]

theorem normSolvedF_other (g : String → Option JVal) (k : String)
    (h : ¬ k = "solved") : normSolvedF g k = g k := by
  unfold normSolvedF
  by_cases hc : (g "solved").isSome
  · rw [if_pos hc]
  · rw [if_neg hc, fset_other h]

theorem normStageF_other (g : String → Option JVal) (k : String)
    (h : ¬ k = "unsolved_stage") : normStageF g k = g k := by
  unfold normStageF
  by_cases h1 : (!(g "unsolved_stage").isSome) = true
  · rw [if_pos h1, fset_other h]
  · rw [if_neg h1]
    by_cases h2 : validStage (fgetD g "unsolved_stage") = true
    · rw [if_pos h2]
    · rw [if_neg h2, fset_other h]

theorem normLabelF_other (g : String → Option JVal) (k : String)
    (h : ¬ k = "unsolved_custom_label") : normLabelF g k = g k := by
  unfold normLabelF
  rw [fset_other h]

theorem normTagsF_other (g : String → Option JVal) (k : String)
    (h : ¬ k = "tags") : normTagsF g k = g k := by
  unfold normTagsF
  by_cases h1 : (!(g "tags").isSome || (fgetD g "tags").isNull) = true
  · rw [if_pos h1, fset_other h]
  · rw [if_neg h1]

theorem normPassF_other (g : String → Option JVal) (k : String)
    (h : ¬ k = "pass_count") : normPassF g k = g k := by
  unfold normPassF
  by_cases h1 : ((g "pass_count").isSome && !(fgetD g "pass_count").isNull) = true
  · rw [if_pos h1]
    rcases pyInt (fgetD g "pass_count") with _ | n
    · exact fset_other h
    · exact fset_other h
  · rw [if_neg h1]

theorem normAssigneeF_other (ow : JVal) (g : String → Option JVal) (k : String)
    (h : ¬ k = "assignee") : normAssigneeF ow g k = g k := by
  unfold normAssigneeF
  rw [fset_other h]

theorem normFinalF_other (g : String → Option JVal) (k : String)
    (h1 : ¬ k = "unsolved_stage") (h2 : ¬ k = "unsolved_custom_label") :
    normFinalF g k = g k := by
  unfold normFinalF
  by_cases hc : pyTruthy (fgetD g "solved") = true
  · rw [if_pos hc, fset_other h2, fset_other h1]
  · rw [if_neg hc]

/-- The keys `normalize_record` may drop or rewrite. -/
def normKeys : List String :=
  ["has_solution", "owner", "solved", "unsolved_stage",
   "unsolved_custom_label", "tags", "pass_count", "assignee"]

/-- `normalize_record` leaves every key outside `normKeys` unchanged. -/
theorem normGet_other (g : String → Option JVal) (k : String)
    (h : ¬ k ∈ normKeys) : normGet g k = g k := by
  simp only [normKeys, List.mem_cons, List.mem_singleton, not_or] at h
  obtain ⟨h1, h2, h3, h4, h5, h6, h7, h8, -⟩ := h
  unfold normGet
  rw [normFinalF_other _ _ h4 h5, normAssigneeF_other _ _ _ h8,
    normPassF_other _ _ h7, normTagsF_other _ _ h6, normLabelF_other _ _ h5,
    normStageF_other _ _ h4, normSolvedF_other _ _ h3,
    fdrop_other h2, fdrop_other h1]

theorem normGet_hs (g : String → Option JVal) :
    normGet g "has_solution" = none := by
  unfold normGet
  rw [normFinalF_other _ _ (by simp) (by simp),
    normAssigneeF_other _ _ _ (by simp), normPassF_other _ _ (by simp),
    normTagsF_other _ _ (by simp), normLabelF_other _ _ (by simp),
    normStageF_other _ _ (by simp), normSolvedF_other _ _ (by simp),
    fdrop_other (by simp), fdrop_self]

theorem normGet_owner (g : String → Option JVal) :
    normGet g "owner" = none := by
  unfold normGet
  rw [normFinalF_other _ _ (by simp) (by simp),
    normAssigneeF_other _ _ _ (by simp), normPassF_other _ _ (by simp),
    normTagsF_other _ _ (by simp), normLabelF_other _ _ (by simp),
    normStageF_other _ _ (by simp), normSolvedF_other _ _ (by simp),
    fdrop_self]

theorem JVal.isNull_iff (v : JVal) : v.isNull = true ↔ v = .null := by
  cases v <;> simp [JVal.isNull]

theorem strippedOrNull_char (v : JVal) :
    strippedOrNull v = .null
      ∨ ∃ t, strippedOrNull v = .str t ∧ pytrim t = t ∧ t ≠ "" := by
  unfold strippedOrNull
  by_cases h1 : v.isNull = true
  · rw [if_pos h1]
    left; rfl
  · rw [if_neg h1]
    by_cases h2 : pytrim (pyStr v) = ""
    · rw [if_pos h2]
      left; rfl
    · rw [if_neg h2]
      right
      exact ⟨pytrim (pyStr v), rfl, pytrim_idem _, h2⟩

/-- The chain of normalization steps before the final invariant
enforcement, on the extensional view. -/
def normPre (g : String → Option JVal) : String → Option JVal :=
  normAssigneeF (fgetD (fdrop g "has_solution") "owner")
    (normPassF (normTagsF (normLabelF (normStageF (normSolvedF
      (fdrop (fdrop g "has_solution") "owner"))))))

theorem normGet_eq_final_pre (g : String → Option JVal) :
    normGet g = normFinalF (normPre g) := rfl

theorem normPre_solved_eq (g : String → Option JVal) :
    normPre g "solved"
      = normSolvedF (fdrop (fdrop g "has_solution") "owner") "solved" := by
  unfold normPre
  rw [normAssigneeF_other _ _ _ (by simp), normPassF_other _ _ (by simp),
    normTagsF_other _ _ (by simp), normLabelF_other _ _ (by simp),
    normStageF_other _ _ (by simp)]

theorem normPre_solved_isSome (g : String → Option JVal) :
    (normPre g "solved").isSome := by
  rw [normPre_solved_eq]
  unfold normSolvedF
  by_cases hc : ((fdrop (fdrop g "has_solution") "owner") "solved").isSome
  · rw [if_pos hc]
    exact hc
  · rw [if_neg hc, fset_self]
    rfl

theorem normPre_stage_char (g : String → Option JVal) :
    normPre g "unsolved_stage" = some .null
      ∨ ∃ s, normPre g "unsolved_stage" = some s ∧ validStage s = true := by
  unfold normPre
  rw [normAssigneeF_other _ _ _ (by simp), normPassF_other _ _ (by simp),
    normTagsF_other _ _ (by simp), normLabelF_other _ _ (by simp)]
  set A := normSolvedF (fdrop (fdrop g "has_solution") "owner") with hA
  unfold normStageF
  by_cases h1 : (!(A "unsolved_stage").isSome) = true
  · rw [if_pos h1, fset_self]
    left; rfl
  · rw [if_neg h1]
    by_cases h2 : validStage (fgetD A "unsolved_stage") = true
    · rw [if_pos h2]
      right
      have hs : (A "unsolved_stage").isSome := by
        rcases hx : A "unsolved_stage" with _ | s
        · rw [hx] at h1
          simp at h1
        · rfl
      rcases ho : A "unsolved_stage" with _ | s
      · rw [ho] at hs
        simp at hs
      · refine ⟨s, rfl, ?_⟩
        rw [fgetD, ho] at h2
        exact h2
    · rw [if_neg h2, fset_self]
      left; rfl

theorem normPre_label_eq (g : String → Option JVal) :
    normPre g "unsolved_custom_label"
      = some (if pyTruthy (fgetD (normPre g) "solved") then .null
          else strippedOrNull
            (fgetD (normStageF (normSolvedF
              (fdrop (fdrop g "has_solution") "owner")))
              "unsolved_custom_label")) := by
  have hsol : fgetD (normPre g) "solved"
      = fgetD (normStageF (normSolvedF
          (fdrop (fdrop g "has_solution") "owner"))) "solved" := by
    unfold normPre fgetD
    rw [normAssigneeF_other _ _ _ (by simp), normPassF_other _ _ (by simp),
      normTagsF_other _ _ (by simp), normLabelF_other _ _ (by simp)]
  rw [hsol]
  unfold normPre
  rw [normAssigneeF_other _ _ _ (by simp), normPassF_other _ _ (by simp),
    normTagsF_other _ _ (by simp)]
  unfold normLabelF
  rw [fset_self]

theorem normPre_label_char (g : String → Option JVal) :
    (pyTruthy (fgetD (normPre g) "solved") = true →
      normPre g "unsolved_custom_label" = some .null)
    ∧ (pyTruthy (fgetD (normPre g) "solved") = false →
      (normPre g "unsolved_custom_label" = some .null
        ∨ ∃ t, normPre g "unsolved_custom_label" = some (.str t)
            ∧ pytrim t = t ∧ t ≠ "")) := by
  constructor
  · intro h
    rw [normPre_label_eq, if_pos h]
  · intro h
    rw [normPre_label_eq, if_neg (by rw [h]; simp)]
    rcases strippedOrNull_char
        (fgetD (normStageF (normSolvedF
          (fdrop (fdrop g "has_solution") "owner"))) "unsolved_custom_label")
      with hc | ⟨t, hc, htr, hne⟩
    · left
      rw [hc]
    · right
      exact ⟨t, by rw [hc], htr, hne⟩

theorem normPre_tags_char (g : String → Option JVal) :
    ∃ tv, normPre g "tags" = some tv ∧ tv.isNull = false := by
  unfold normPre
  rw [normAssigneeF_other _ _ _ (by simp), normPassF_other _ _ (by simp)]
  set C := normLabelF (normStageF (normSolvedF
    (fdrop (fdrop g "has_solution") "owner"))) with hC
  unfold normTagsF
  by_cases h1 : (!(C "tags").isSome || (fgetD C "tags").isNull) = true
  · rw [if_pos h1, fset_self]
    exact ⟨.arr [], rfl, rfl⟩
  · rw [if_neg h1]
    have h2 : (C "tags").isSome ∧ (fgetD C "tags").isNull = false := by
      constructor
      · rcases hx : (C "tags").isSome
        · rw [hx] at h1
          simp at h1
        · rfl
      · rcases hx : (fgetD C "tags").isNull
        · rfl
        · rw [hx] at h1
          simp at h1
    rcases ho : C "tags" with _ | tv
    · rw [ho] at h2
      simp at h2
    · refine ⟨tv, rfl, ?_⟩
      have := h2.2
      rw [fgetD, ho] at this
      exact this

theorem normPre_pass_char (g : String → Option JVal) :
    normPre g "pass_count" = none ∨ normPre g "pass_count" = some .null
      ∨ ∃ n, normPre g "pass_count" = some (.int n) := by
  unfold normPre
  rw [normAssigneeF_other _ _ _ (by simp)]
  set D := normTagsF (normLabelF (normStageF (normSolvedF
    (fdrop (fdrop g "has_solution") "owner")))) with hD
  unfold normPassF
  by_cases h1 : ((D "pass_count").isSome && !(fgetD D "pass_count").isNull) = true
  · rw [if_pos h1]
    rcases hp : pyInt (fgetD D "pass_count") with _ | n
    · right; left
      exact fset_self _ _ _
    · right; right
      exact ⟨n, fset_self _ _ _⟩
  · rw [if_neg h1]
    rcases ho : D "pass_count" with _ | v
    · left; rfl
    · right; left
      have hnull : v.isNull = true := by
        rcases hx : v.isNull
        · exfalso
          apply h1
          rw [ho, fgetD, ho]
          simp [hx]
        · rfl
      rw [(JVal.isNull_iff v).mp hnull]

theorem normPre_assignee_char (g : String → Option JVal) :
    normPre g "assignee" = some .null
      ∨ ∃ t, normPre g "assignee" = some (.str t) ∧ pytrim t = t ∧ t ≠ "" := by
  unfold normPre normAssigneeF
  rw [fset_self]
  rcases strippedOrNull_char
      (if (fgetD (normPassF (normTagsF (normLabelF (normStageF (normSolvedF
            (fdrop (fdrop g "has_solution") "owner")))))) "assignee").isNull
          && pyTruthy (fgetD (fdrop g "has_solution") "owner")
        then fgetD (fdrop g "has_solution") "owner"
        else fgetD (normPassF (normTagsF (normLabelF (normStageF (normSolvedF
          (fdrop (fdrop g "has_solution") "owner")))))) "assignee")
    with hc | ⟨t, hc, htr, hne⟩
  · left
    rw [hc]
  · right
    exact ⟨t, by rw [hc], htr, hne⟩

theorem normGet_solved_eq_pre (g : String → Option JVal) :
    normGet g "solved" = normPre g "solved" := by
  rw [normGet_eq_final_pre]
  exact normFinalF_other _ _ (by simp) (by simp)

theorem normGet_solved_isSome (g : String → Option JVal) :
    (normGet g "solved").isSome := by
  rw [normGet_solved_eq_pre]
  exact normPre_solved_isSome g

theorem normGet_truthy_eq_pre (g : String → Option JVal) :
    pyTruthy (fgetD (normGet g) "solved")
      = pyTruthy (fgetD (normPre g) "solved") := by
  unfold fgetD
  rw [normGet_solved_eq_pre]

theorem normGet_stage_char (g : String → Option JVal) :
    normGet g "unsolved_stage" = some .null
      ∨ ∃ s, normGet g "unsolved_stage" = some s ∧ validStage s = true := by
  rw [normGet_eq_final_pre]
  unfold normFinalF
  by_cases hc : pyTruthy (fgetD (normPre g) "solved") = true
  · rw [if_pos hc, fset_other (by simp), fset_self]
    left; rfl
  · rw [if_neg hc]
    exact normPre_stage_char g

theorem normGet_stage_of_truthy (g : String → Option JVal)
    (h : pyTruthy (fgetD (normGet g) "solved") = true) :
    normGet g "unsolved_stage" = some .null := by
  rw [normGet_truthy_eq_pre] at h
  rw [normGet_eq_final_pre]
  unfold normFinalF
  rw [if_pos h, fset_other (by simp), fset_self]

theorem normGet_label_of_truthy (g : String → Option JVal)
    (h : pyTruthy (fgetD (normGet g) "solved") = true) :
    normGet g "unsolved_custom_label" = some .null := by
  rw [normGet_truthy_eq_pre] at h
  rw [normGet_eq_final_pre]
  unfold normFinalF
  rw [if_pos h, fset_self]

theorem normGet_label_char (g : String → Option JVal)
    (h : pyTruthy (fgetD (normGet g) "solved") = false) :
    normGet g "unsolved_custom_label" = some .null
      ∨ ∃ t, normGet g "unsolved_custom_label" = some (.str t)
          ∧ pytrim t = t ∧ t ≠ "" := by
  rw [normGet_truthy_eq_pre] at h
  rw [normGet_eq_final_pre]
  unfold normFinalF
  rw [if_neg (by rw [h]; simp)]
  exact (normPre_label_char g).2 h

theorem normGet_tags_char (g : String → Option JVal) :
    ∃ tv, normGet g "tags" = some tv ∧ tv.isNull = false := by
  rw [normGet_eq_final_pre,
    normFinalF_other _ _ (by simp) (by simp)]
  exact normPre_tags_char g

theorem normGet_pass_char (g : String → Option JVal) :
    normGet g "pass_count" = none ∨ normGet g "pass_count" = some .null
      ∨ ∃ n, normGet g "pass_count" = some (.int n) := by
  rw [normGet_eq_final_pre,
    normFinalF_other _ _ (by simp) (by simp)]
  exact normPre_pass_char g

theorem normGet_assignee_char (g : String → Option JVal) :
    normGet g "assignee" = some .null
      ∨ ∃ t, normGet g "assignee" = some (.str t) ∧ pytrim t = t ∧ t ≠ "" := by
  rw [normGet_eq_final_pre,
    normFinalF_other _ _ (by simp) (by simp)]
  exact normPre_assignee_char g

theorem normSolvedF_eq_self {h : String → Option JVal}
    (f : (h "solved").isSome) : normSolvedF h = h := by
  unfold normSolvedF
  rw [if_pos f]

theorem normStageF_eq_self {h : String → Option JVal}
    (f : h "unsolved_stage" = some .null
      ∨ ∃ s, h "unsolved_stage" = some s ∧ validStage s = true) :
    normStageF h = h := by
  unfold normStageF
  rcases f with f | ⟨s, hs, hv⟩
  · rw [if_neg (by rw [f]; simp),
      if_neg (by rw [fgetD, f]; simp [validStage, JVal.eqStr])]
    exact fset_eq_self f
  · rw [if_neg (by rw [hs]; simp), if_pos (by rw [fgetD, hs]; exact hv)]

theorem strippedOrNull_of_null : strippedOrNull .null = .null := rfl

theorem strippedOrNull_of_trimmed {t : String} (htr : pytrim t = t)
    (hne : t ≠ "") : strippedOrNull (.str t) = .str t := by
  unfold strippedOrNull
  rw [if_neg (by simp [JVal.isNull])]
  have hp : pyStr (.str t) = t := rfl
  rw [hp, htr, if_neg hne]

theorem normLabelF_eq_self {h : String → Option JVal}
    (ht : pyTruthy (fgetD h "solved") = true →
      h "unsolved_custom_label" = some .null)
    (hf : pyTruthy (fgetD h "solved") = false →
      (h "unsolved_custom_label" = some .null
        ∨ ∃ t, h "unsolved_custom_label" = some (.str t)
            ∧ pytrim t = t ∧ t ≠ "")) :
    normLabelF h = h := by
  unfold normLabelF
  by_cases hc : pyTruthy (fgetD h "solved") = true
  · rw [if_pos hc]
    exact fset_eq_self (ht hc)
  · rw [Bool.not_eq_true] at hc
    rw [if_neg (by rw [hc]; simp)]
    rcases hf hc with f | ⟨t, hft, htr, hne⟩
    · apply fset_eq_self
      have hv : strippedOrNull (fgetD h "unsolved_custom_label") = .null := by
        rw [fgetD, f]
        rfl
      rw [hv]
      exact f
    · apply fset_eq_self
      have hv : strippedOrNull (fgetD h "unsolved_custom_label") = .str t := by
        rw [fgetD, hft]
        exact strippedOrNull_of_trimmed htr hne
      rw [hv]
      exact hft

theorem normTagsF_eq_self {h : String → Option JVal}
    (f : ∃ tv, h "tags" = some tv ∧ tv.isNull = false) : normTagsF h = h := by
  obtain ⟨tv, hf, hn⟩ := f
  unfold normTagsF
  rw [if_neg (by rw [hf, fgetD, hf]; simp [hn])]

theorem normPassF_eq_self {h : String → Option JVal}
    (f : h "pass_count" = none ∨ h "pass_count" = some .null
      ∨ ∃ n, h "pass_count" = some (.int n)) : normPassF h = h := by
  unfold normPassF
  rcases f with f | f | ⟨n, f⟩
  · rw [if_neg (by rw [f]; simp)]
  · rw [if_neg (by rw [f, fgetD, f]; simp [JVal.isNull])]
  · rw [if_pos (by rw [f, fgetD, f]; simp [JVal.isNull])]
    have hv : fgetD h "pass_count" = .int n := by
      rw [fgetD, f]
      rfl
    rw [hv]
    exact fset_eq_self f

theorem normAssigneeF_null_eq_self {h : String → Option JVal}
    (f : h "assignee" = some .null
      ∨ ∃ t, h "assignee" = some (.str t) ∧ pytrim t = t ∧ t ≠ "") :
    normAssigneeF .null h = h := by
  unfold normAssigneeF
  have hcond : ((fgetD h "assignee").isNull && pyTruthy .null) = false := by
    simp [pyTruthy]
  rw [if_neg (by rw [hcond]; simp)]
  rcases f with f | ⟨t, hft, htr, hne⟩
  · apply fset_eq_self
    have hv : strippedOrNull (fgetD h "assignee") = .null := by
      rw [fgetD, f]
      rfl
    rw [hv]
    exact f
  · apply fset_eq_self
    have hv : strippedOrNull (fgetD h "assignee") = .str t := by
      rw [fgetD, hft]
      exact strippedOrNull_of_trimmed htr hne
    rw [hv]
    exact hft

theorem normFinalF_eq_self {h : String → Option JVal}
    (hus : pyTruthy (fgetD h "solved") = true →
      h "unsolved_stage" = some .null)
    (hucl : pyTruthy (fgetD h "solved") = true →
      h "unsolved_custom_label" = some .null) :
    normFinalF h = h := by
  unfold normFinalF
  by_cases hc : pyTruthy (fgetD h "solved") = true
  · rw [if_pos hc, fset_eq_self (hus hc), fset_eq_self (hucl hc)]
  · rw [if_neg hc]

/-- A function already in the range shape of `normGet` is a fixed point. -/
theorem normGet_eq_self {h : String → Option JVal}
    (f1 : h "has_solution" = none) (f2 : h "owner" = none)
    (f3 : (h "solved").isSome)
    (f4 : h "unsolved_stage" = some .null
      ∨ ∃ s, h "unsolved_stage" = some s ∧ validStage s = true)
    (f4t : pyTruthy (fgetD h "solved") = true →
      h "unsolved_stage" = some .null)
    (f5t : pyTruthy (fgetD h "solved") = true →
      h "unsolved_custom_label" = some .null)
    (f5f : pyTruthy (fgetD h "solved") = false →
      (h "unsolved_custom_label" = some .null
        ∨ ∃ t, h "unsolved_custom_label" = some (.str t)
            ∧ pytrim t = t ∧ t ≠ ""))
    (f6 : ∃ tv, h "tags" = some tv ∧ tv.isNull = false)
    (f7 : h "pass_count" = none ∨ h "pass_count" = some .null
      ∨ ∃ n, h "pass_count" = some (.int n))
    (f8 : h "assignee" = some .null
      ∨ ∃ t, h "assignee" = some (.str t) ∧ pytrim t = t ∧ t ≠ "") :
    normGet h = h := by
  unfold normGet
  rw [fdrop_eq_self f1, fdrop_eq_self f2]
  have how : fgetD h "owner" = .null := by
    rw [fgetD, f2]
    rfl
  rw [how, normSolvedF_eq_self f3, normStageF_eq_self f4,
    normLabelF_eq_self f5t f5f, normTagsF_eq_self f6, normPassF_eq_self f7,
    normAssigneeF_null_eq_self f8, normFinalF_eq_self f4t f5t]

/-- Idempotence of the normalization on the extensional view. -/
theorem normGet_idem (g : String → Option JVal) :
    normGet (normGet g) = normGet g :=
  normGet_eq_self (normGet_hs g) (normGet_owner g) (normGet_solved_isSome g)
    (normGet_stage_char g) (normGet_stage_of_truthy g)
    (normGet_label_of_truthy g) (normGet_label_char g)
    (normGet_tags_char g) (normGet_pass_char g) (normGet_assignee_char g)

/-- `LETTERS` (`server.py:299`). -/
def LETTERS : List Char := "ABCDEFGHIJKLMNOPQRSTUVWXYZ".data

/-- The letter auto-assigned to position `i`. -/
def letterAt (i : Nat) : JVal :=
  .str (String.singleton (LETTERS.getD i 'A'))

/-- Membership in `('ac', 'attempted', 'unsubmitted')` (`server.py:318`). -/
def contestStatusOk (v : JVal) : Bool :=
  v.eqStr "ac" || v.eqStr "attempted" || v.eqStr "unsubmitted"

/-- `max(1, min(15, int(rec.get('total_problems') or 1)))` with the
try/except fallback to 1 (`server.py:303-306`). -/
def contestTotal (rec : Rec) : Int :=
  match pyInt (pyOrVal (getKD rec "total_problems") (.int 1)) with
  | some n => max 1 (min 15 n)
  | none => 1

/-- `probs = rec.get('problems') or []` viewed as the int-indexable sequence
the loop body reads; `none` models the uncaught exception raised inside the
loop for non-sequences (`len` raising `TypeError`) and for nonempty dicts
(`probs[i]` raising `KeyError`, since JSON dict keys are strings). -/
def contestElems (rec : Rec) : Option (List JVal) :=
  match pyOrVal (getKD rec "problems") (.arr []) with
  | .arr l => some l
  | .str s => some (s.data.map (fun c => JVal.str (String.singleton c)))
  | _ => none

/-- One output entry of the contest problems loop (`server.py:310-322`):
`base` updated from `probs[i].get(k, default)` when `probs[i]` is a dict,
with pass/attempt coercion and status validation. -/
def contestEntry (elems : List JVal) (i : Nat) : Rec :=
  match elems.get? i with
  | some (.obj kvs) =>
      let lv := (getK kvs "letter").getD (letterAt i)
      let pv0 := (getK kvs "pass_count").getD (.int 0)
      let av0 := (getK kvs "attempt_count").getD (.int 0)
      let mv0 := (getK kvs "my_status").getD (.str "unsubmitted")
      let pv := match pyInt (pyOrVal pv0 (.int 0)) with
        | some n => JVal.int n
        | none => JVal.int 0
      let av := match pyInt (pyOrVal av0 (.int 0)) with
        | some n => JVal.int n
        | none => JVal.int 0
      let mv := if contestStatusOk mv0 then mv0 else .str "unsubmitted"
      [("letter", lv), ("pass_count", pv), ("attempt_count", av),
       ("my_status", mv)]
  | _ =>
      [("letter", letterAt i), ("pass_count", .int 0),
       ("attempt_count", .int 0), ("my_status", .str "unsubmitted")]

/-- `normalize_contest` (`server.py:301-324`); `none` models an uncaught
exception from a non-indexable `problems` value. -/
def normalize_contest (rec : Rec) : Option Rec :=
  let tot := contestTotal rec
  let rec1 := setK rec "total_problems" (.int tot)
  match contestElems rec1 with
  | none => none
  | some elems =>
      some (setK rec1 "problems"
        (.arr ((List.range tot.toNat).map
          (fun i => JVal.obj (contestEntry elems i)))))

/-- The letter of the i-th problem entry of a contest record. -/
def contestLetter (r : Rec) (i : Nat) : Option JVal :=
  match getK r "problems" with
  | some (.arr ps) =>
      match ps.get? i with
      | some (.obj kvs) => getK kvs "letter"
      | _ => none
  | _ => none

/-- Contents of the problems container file, at the granularity the store
observes them: bytes that parse as a JSON array of records, or bytes that
`json.loads` rejects. -/
inductive FileBytes where
  | valid (items : List Rec) : FileBytes
  | invalid (raw : String) : FileBytes

/-- On-disk state owned by the problems record store: the container file,
its corruption backup (`problems.backup.json`), and the solutions side-file
directory (`data/solutions/<id>.md`, keyed by problem id). -/
structure Store where
  dataFile : FileBytes
  backupFile : Option FileBytes
  solutions : List (String × String)

/-- `_solution_exists` (`server.py:98-99`). -/
def solExists (sols : List (String × String)) (pid : String) : Bool :=
  (sols.find? (fun p => p.1 = pid)).isSome

/-- `_read_solution` (`server.py:102-106`). -/
def solGet (sols : List (String × String)) (pid : String) : Option String :=
  (sols.find? (fun p => p.1 = pid)).map Prod.snd

/-- `_write_solution` (`server.py:109-111`): overwrite-or-create. -/
def solSet (sols : List (String × String)) (pid text : String) :
    List (String × String) :=
  if (sols.find? (fun p => p.1 = pid)).isSome then
    sols.map (fun p => if p.1 = pid then (pid, text) else p)
  else sols ++ [(pid, text)]

/-- `_delete_solution` (`server.py:114-117`): no-op when absent. -/
def solDel (sols : List (String × String)) (pid : String) :
    List (String × String) :=
  sols.filter (fun p => p.1 ≠ pid)

/-- The legacy solution keys, in the priority order of `server.py:54`. -/
def legacyKeys : List String :=
  ["solution_markdown", "solution_md", "solution"]

/-- One probe of the legacy-key loop: `key in rec and rec[key]`
(`server.py:55`). -/
def legacyProbe (r : Rec) (k : String) : Option (String × JVal) :=
  match getK r k with
  | some v => if pyTruthy v then some (k, v) else none
  | none => none

/-- First legacy solution key holding a truthy value (`server.py:54-58`);
keys holding falsy values are skipped, not popped. -/
def findLegacy (r : Rec) : Option (String × JVal) :=
  (legacyProbe r "solution_markdown").or
    ((legacyProbe r "solution_md").or (legacyProbe r "solution"))

/-- One iteration of the migration loop in `_load` (`server.py:50-64`):
pop the first truthy legacy solution key, write the side-file when the
record then has a truthy id, pop `has_solution` (flagging `changed` only
when its value was not `None`), and normalize.  Returns the normalized
record, the updated solutions store, and this record's `changed` flag. -/
def processRec (sols : List (String × String)) (rec : Rec) :
    Rec × List (String × String) × Bool :=
  match findLegacy rec with
  | some (k, content) =>
      let rec1 := popK rec k
      let sols1 :=
        if pyTruthy (getKD rec1 "id") then
          solSet sols (pyStr (getKD rec1 "id")) (pyStr content)
        else sols
      (normalize_record (popK rec1 "has_solution"), sols1, true)
  | none =>
      (normalize_record (popK rec "has_solution"), sols,
       !(getKD rec "has_solution").isNull)

/-- The migration pass of `_load` over all decoded records, threading the
solutions store and accumulating the `changed` flag (`server.py:48-64`). -/
def migrateList (sols : List (String × String)) :
    List Rec → List Rec × List (String × String) × Bool
  | [] => ([], sols, false)
  | r :: rs =>
      let p := processRec sols r
      let q := migrateList p.2.1 rs
      (p.1 :: q.1, q.2.1, p.2.2 || q.2.2)

/-- The `has_solution` attachment of `_load` (`server.py:75-80`). -/
def attachHS (sols : List (String × String)) (r : Rec) : Rec :=
  if pyTruthy (getKD r "id") then
    setK r "has_solution" (.bool (solExists sols (pyStr (getKD r "id"))))
  else setK r "has_solution" (.bool false)

/-- `_load` (`server.py:37-81`): decode with corruption backup-and-reset,
migration pass, conditional container rewrite stripped of `has_solution`,
and `has_solution` attachment on the returned records. -/
def loadStep (st : Store) : Store × List Rec :=
  let dec : List Rec × Store :=
    match st.dataFile with
    | .valid items => (items, st)
    | .invalid raw =>
        ([], { dataFile := .valid [], backupFile := some (.invalid raw),
               solutions := st.solutions })
  let m := migrateList dec.2.solutions dec.1
  let df := if m.2.2 then
      FileBytes.valid (m.1.map (fun r => popK r "has_solution"))
    else dec.2.dataFile
  let outs := m.1.map (attachHS m.2.1)
  ({ dataFile := df, backupFile := dec.2.backupFile, solutions := m.2.1 },
   outs)

/-- `_save` (`server.py:83-91`): strip `has_solution`, overwrite the
container. -/
def saveStep (st : Store) (items : List Rec) : Store :=
  { st with dataFile := .valid (items.map (fun r => popK r "has_solution")) }

/-- Python `s.replace("\r\n", "\n")` on the character list (left-to-right,
non-overlapping). -/
def replaceCRLF : List Char → List Char
  | [] => []
  | [c] => [c]
  | c1 :: c2 :: rest =>
      if c1 = '\r' ∧ c2 = '\n' then '\n' :: replaceCRLF rest
      else c1 :: replaceCRLF (c2 :: rest)

/-- Update the first record matching `p` in place, as Python's mutation of
the found dict inside the loaded list. -/
def updateFirst (p : Rec → Bool) (f : Rec → Rec) : List Rec → List Rec
  | [] => []
  | r :: rs => if p r then f r :: rs else r :: updateFirst p f rs

/-- What `put_solution` reports to the client (`server.py:442-446`). -/
structure PutSolutionResp where
  has_solution : Bool
  updated_at : String

/-- `put_solution` (`server.py:428-446`), including the
`_load_and_find_problem` lookup (`server.py:120-125`); `none` models the
404.  `now` stands for `datetime.utcnow().isoformat() + "Z"`. -/
def put_solution (st : Store) (pid : String) (payload : Option String)
    (now : String) : Option (Store × PutSolutionResp) :=
  let l := loadStep st
  let st1 := l.1
  let items := l.2
  match items.find? (fun r => (getKD r "id").eqStr pid) with
  | none => none
  | some _ =>
      let md : String := ⟨replaceCRLF (payload.getD "").data⟩
      let upd := fun (has : Bool) (r : Rec) =>
        setK (setK r "has_solution" (.bool has)) "updated_at" (.str now)
      if pytrim md = "" then
        let sols1 := solDel st1.solutions pid
        let items1 := updateFirst (fun r => (getKD r "id").eqStr pid)
          (upd false) items
        some (saveStep { st1 with solutions := sols1 } items1,
          ⟨false, now⟩)
      else
        let sols1 := solSet st1.solutions pid md
        let items1 := updateFirst (fun r => (getKD r "id").eqStr pid)
          (upd true) items
        some (saveStep { st1 with solutions := sols1 } items1,
          ⟨true, now⟩)

/-- The validated `unsolved_stage` literal (`server.py:171`). -/
inductive UnsolvedStage where
  | unseen : UnsolvedStage
  | seenNoIdea : UnsolvedStage
  | knowsNotImplemented : UnsolvedStage

/-- The label text of an `unsolved_stage` literal. -/
def UnsolvedStage.toText : UnsolvedStage → String
  | .unseen => "未看题"
  | .seenNoIdea => "已看题无思路"
  | .knowsNotImplemented => "知道做法未实现"

/-- `ProblemIn` (`server.py:173-210`), as typed by FastAPI; string fields
carry arbitrary text before validators run. -/
structure ProblemIn where
  title : String
  link : Option String
  source : Option String
  tags : List String
  assignee : Option String
  solved : Bool
  unsolved_stage : Option UnsolvedStage
  unsolved_custom_label : Option String
  pass_count : Option Int
  notes : Option String

/-- The pydantic validators of `ProblemIn` (`server.py:185-210`): strip
optional text to `None`-when-blank, then clear the unsolved fields when
`solved` is true. -/
def validateProblemIn (p : ProblemIn) : ProblemIn :=
  let stripOpt := fun (v : Option String) =>
    v.bind (fun s => if pytrim s = "" then none else some (pytrim s))
  let p1 := { p with
    source := stripOpt p.source,
    assignee := stripOpt p.assignee,
    unsolved_custom_label := stripOpt p.unsolved_custom_label,
    notes := stripOpt p.notes }
  if p1.solved then
    { p1 with unsolved_stage := none, unsolved_custom_label := none }
  else p1

/-- `None`-or-string as a JSON value. -/
def optStr : Option String → JVal
  | none => .null
  | some s => .str s

/-- `model_dump(mode="json")` of a `ProblemIn`, in field order. -/
def dumpProblemIn (p : ProblemIn) : Rec :=
  [("title", .str p.title),
   ("link", optStr p.link),
   ("source", optStr p.source),
   ("tags", .arr (p.tags.map JVal.str)),
   ("assignee", optStr p.assignee),
   ("solved", .bool p.solved),
   ("unsolved_stage", optStr (p.unsolved_stage.map UnsolvedStage.toText)),
   ("unsolved_custom_label", optStr p.unsolved_custom_label),
   ("pass_count", (p.pass_count.map JVal.int).getD .null),
   ("notes", optStr p.notes)]

/-- `create_problem` (`server.py:331-349`): validate the input, clear the
unsolved fields when solved, build the `Problem` model (which revalidates)
with fresh id and timestamps, and attach the side-file existence flag. -/
def create_problem (item : ProblemIn) (pid now : String)
    (sols : List (String × String)) : Rec :=
  let p := validateProblemIn item
  let p := if p.solved then
      { p with unsolved_stage := none, unsolved_custom_label := none }
    else p
  let p := validateProblemIn p
  let rec0 := dumpProblemIn p ++
    [("id", .str pid), ("created_at", .str now), ("updated_at", .str now),
     ("has_solution", .bool false)]
  setK rec0 "has_solution" (.bool (solExists sols pid))

/-- The record written back by `update_problem` for the matched record
(`server.py:356-362`): `rec.update(data)` with the validated, cleared dump,
fresh `updated_at`, then `normalize_record`. -/
def update_problem_record (rec : Rec) (item : ProblemIn) (now : String) :
    Rec :=
  let p := validateProblemIn item
  let data := dumpProblemIn p
  let data := if pyTruthy (getKD data "solved") then
      setK (setK data "unsolved_stage" .null) "unsolved_custom_label" .null
    else data
  normalize_record
    (setK (data.foldl (fun r kv => setK r kv.1 kv.2) rec) "updated_at"
      (.str now))

/-- Captured result of one `_sh` shell invocation (`git_utils.py:17-25`):
exit code and captured output. -/
structure ShRes where
  rc : Int
  out : String
  err : String

/-- The external `git` tool, as a map from command line to result.  The
orchestrator observes nothing else; executed commands are recorded in
returned traces. -/
abbrev GitExec := String → ShRes

/-- `is_data_git_repo` (`git_utils.py:49-52`), recording its command. -/
def isRepoCall (exec : GitExec) (tr : List String) : Bool × List String :=
  let r := exec "git rev-parse --is-inside-work-tree"
  ((r.rc == 0) && (pytrim r.out == "true"),
   tr ++ ["git rev-parse --is-inside-work-tree"])

/-- `init_data_repo` (`git_utils.py:61-108`): init if needed, then
configure the remote; returns the transcript and the command trace.  The
config-cache write (`save_git_config`) touches no state any claim reads. -/
def init_data_repo (exec : GitExec) (repo_url : String) (tr : List String) :
    String × List String × Bool :=
  let i := isRepoCall exec tr
  let step1 : String × List String × Bool :=
    if i.1 then ("ℹ️  data/ 目录已经是 Git 仓库\n\n", i.2, false)
    else
      let r := exec "git init"
      let tr2 := i.2 ++ ["git init"]
      let o := "=== 初始化 Git 仓库 ===\n" ++ r.out ++ "\n"
      if r.rc == 0 then (o ++ "✓ Git 仓库初始化成功\n\n", tr2, false)
      else (o ++ "stderr: " ++ r.err ++ "\n" ++ "\n❌ Git 初始化失败", tr2, true)
  if step1.2.2 then step1
  else if pytrim repo_url = "" then
    (step1.1 ++ "⚠️  未提供仓库地址，跳过远程配置\n", step1.2.1, false)
  else
    let out2 := step1.1 ++ "=== 配置远程仓库 ===\n"
    let ck := exec "git remote get-url origin"
    let tr2 := step1.2.1 ++ ["git remote get-url origin"]
    let step2 : ShRes × String × List String :=
      if ck.rc == 0 then
        (exec ("git remote set-url origin " ++ repo_url),
         out2 ++ "更新远程仓库地址: " ++ repo_url ++ "\n",
         tr2 ++ ["git remote set-url origin " ++ repo_url])
      else
        (exec ("git remote add origin " ++ repo_url),
         out2 ++ "添加远程仓库: " ++ repo_url ++ "\n",
         tr2 ++ ["git remote add origin " ++ repo_url])
    if step2.1.rc == 0 then
      (step2.2.1 ++ "✓ 远程仓库配置成功\n" ++ "✓ 配置已保存到缓存\n",
       step2.2.2, false)
    else
      (step2.2.1 ++ "stderr: " ++ step2.1.err ++ "\n" ++ "\n❌ 远程仓库配置失败",
       step2.2.2, false)

/-- The plain pull command of `git_utils.git_pull` (`git_utils.py:133`). -/
def pullCmd (branch : String) : String := "git pull origin " ++ branch

/-- The one-shot fallback pull command (`git_utils.py:145`). -/
def pullRetryCmd (branch : String) : String :=
  "git pull origin " ++ branch ++ " --allow-unrelated-histories"

/-- The initialization/remote-update phase of `git_pull`
(`git_utils.py:115-123`). -/
def gitPullPre (exec : GitExec) (repo_url : String) : String × List String :=
  let i := isRepoCall exec []
  if !i.1 then
    let r := init_data_repo exec repo_url i.2
    (r.1 ++ "\n", r.2.1)
  else if pytrim repo_url ≠ "" then
    let _ := exec ("git remote set-url origin " ++ repo_url)
    ("", i.2 ++ ["git remote set-url origin " ++ repo_url])
  else ("", i.2)

/-- `git_pull` of the sync layer (`git_utils.py:111-152`): ensure init and
remote, plain pull, one retry with `--allow-unrelated-histories` on
failure; returns the transcript and the command trace. -/
def gitUtilsPull (exec : GitExec) (repo_url branch : String) :
    String × List String :=
  let pre := gitPullPre exec repo_url
  let ck := exec "git remote get-url origin"
  let tr1 := pre.2 ++ ["git remote get-url origin"]
  if ck.rc ≠ 0 then (pre.1 ++ "❌ 远程仓库未配置\n请先输入仓库地址", tr1)
  else
    let out1 := pre.1 ++ "=== git pull origin " ++ branch ++ " ===\n"
    let r := exec (pullCmd branch)
    let tr2 := tr1 ++ [pullCmd branch]
    let out2 := out1 ++ "Return code: " ++ toString r.rc ++ "\n\n"
      ++ "stdout:\n" ++ r.out ++ "\n\n"
    let out3 := if r.err ≠ "" then out2 ++ "stderr:\n" ++ r.err ++ "\n"
      else out2
    if r.rc = 0 then (out3 ++ "\n✓ 成功拉取远程更新", tr2)
    else
      let out4 := out3 ++ "\n第一次拉取？尝试使用 --allow-unrelated-histories...\n"
      let r2 := exec (pullRetryCmd branch)
      let tr3 := tr2 ++ [pullRetryCmd branch]
      let out5 := out4 ++ "\n" ++ r2.out ++ "\n"
      if r2.rc = 0 then (out5 ++ "\n✓ 成功拉取远程更新", tr3)
      else (out5 ++ "\n❌ 拉取失败", tr3)

/-- Characters `shlex.quote` leaves unquoted. -/
def shlexSafe (c : Char) : Bool :=
  c.isAlphanum || c = '@' || c = '%' || c = '+' || c = '=' || c = ':'
    || c = ',' || c = '.' || c = '/' || c = '-' || c = '_'

/-- Python `shlex.quote`. -/
def shlexQuote (s : String) : String :=
  if s = "" then "''"
  else if s.data.all shlexSafe then s
  else "'" ++ (⟨s.data.flatMap (fun c =>
    if c = '\'' then ['\'', '"', '\'', '"', '\''] else [c])⟩ : String) ++ "'"

/-- The `/api/git/pull` handler (`server.py:501-511`): repo check, default
remote/branch, a single quoted pull — no fallback attempt.  Returns
`(ok, captured result)` and the command trace. -/
def serverGitPull (exec : GitExec) (remote branch : String) :
    (Bool × Option ShRes) × List String :=
  let i := isRepoCall exec []
  if !i.1 then ((false, none), i.2)
  else
    let rm := if pytrim remote = "" then "origin" else pytrim remote
    let br := if pytrim branch = "" then "main" else pytrim branch
    let cmd := "git pull " ++ shlexQuote rm ++ " " ++ shlexQuote br
    let r := exec cmd
    ((r.rc == 0, some r), i.2 ++ [cmd])

/-- `message.replace('"', '\\"')` — the commit-message sanitization of
`git_push` (`server.py:482`, `git_utils.py:196`). -/
def escapeChars (l : List Char) : List Char :=
  l.flatMap (fun c => if c = '"' then ['\\', '"'] else [c])

/-- The sanitized commit message. -/
def escapeQuotes (m : String) : String := ⟨escapeChars m.data⟩

/-- The shell command string handed to `_sh` for the commit step
(`server.py:483`, `git_utils.py:197`): `git commit -m "<escaped>"`. -/
def gitCommitCmd (m : String) : String :=
  "git commit -m \"" ++ escapeQuotes m ++ "\""

/-- Lexing mode of the POSIX-shell word splitter: outside quotes, outside
quotes right after a backslash, inside double quotes, inside double quotes
right after a backslash, inside single quotes. -/
inductive LexMode where
  | plain : LexMode
  | plainEsc : LexMode
  | dq : LexMode
  | dqEsc : LexMode
  | sq : LexMode

/-- POSIX-shell command-line splitting, conservative about expansion: an
active `$` or backtick (outside single quotes) yields `none`, as the
resulting word is no longer a plain literal; `;`, `&`, `|` and newline
separate commands; backslash escapes the next character (inside double
quotes only before `"`, `\`, `$`, backtick or newline); an unterminated
quote, trailing backslash or empty command is a syntax error (`none`).
Arguments: input, mode, current word (reversed), whether a word has
started, words of the current command (reversed), finished commands
(reversed). -/
def shellLex : List Char → LexMode → List Char → Bool → List String →
    List (List String) → Option (List (List String))
  | [], .plain, cur, started, ws, cmds =>
      let ws1 := if started then (⟨cur.reverse⟩ : String) :: ws else ws
      if ws1.isEmpty then some cmds.reverse
      else some ((ws1.reverse :: cmds).reverse)
  | [], .plainEsc, _, _, _, _ => none
  | [], .dq, _, _, _, _ => none
  | [], .dqEsc, _, _, _, _ => none
  | [], .sq, _, _, _, _ => none
  | c :: rest, .plain, cur, started, ws, cmds =>
      if c = '"' then shellLex rest .dq cur true ws cmds
      else if c = '\'' then shellLex rest .sq cur true ws cmds
      else if c = '\\' then shellLex rest .plainEsc cur started ws cmds
      else if c = '$' || c = '`' then none
      else if c = ' ' || c = '\t' then
        let ws1 := if started then (⟨cur.reverse⟩ : String) :: ws else ws
        shellLex rest .plain [] false ws1 cmds
      else if c = ';' || c = '&' || c = '|' || c = '\n' then
        let ws1 := if started then (⟨cur.reverse⟩ : String) :: ws else ws
        if ws1.isEmpty then none
        else shellLex rest .plain [] false [] (ws1.reverse :: cmds)
      else shellLex rest .plain (c :: cur) true ws cmds
  | c :: rest, .plainEsc, cur, _, ws, cmds =>
      shellLex rest .plain (c :: cur) true ws cmds
  | c :: rest, .dq, cur, _, ws, cmds =>
      if c = '"' then shellLex rest .plain cur true ws cmds
      else if c = '\\' then shellLex rest .dqEsc cur true ws cmds
      else if c = '$' || c = '`' then none
      else shellLex rest .dq (c :: cur) true ws cmds
  | c :: rest, .dqEsc, cur, _, ws, cmds =>
      if c = '"' || c = '\\' || c = '$' || c = '`' then
        shellLex rest .dq (c :: cur) true ws cmds
      else if c = '\n' then shellLex rest .dq cur true ws cmds
      else shellLex rest .dq (c :: '\\' :: cur) true ws cmds
  | c :: rest, .sq, cur, _, ws, cmds =>
      if c = '\'' then shellLex rest .plain cur true ws cmds
      else shellLex rest .sq (c :: cur) true ws cmds

/-- Split a shell command line into commands of words. -/
def shellSplit (s : String) : Option (List (List String)) :=
  shellLex s.data .plain [] false [] []

/-- `needle` occurs verbatim inside `hay`. -/
def strInfix (needle hay : String) : Prop :=
  needle.data <:+: hay.data

theorem strInfix_of_append (A n B : String) : strInfix n (A ++ n ++ B) :=
  ⟨A.data, B.data, by simp [strInfix, String.data_append]⟩

theorem strInfix_suffix_append (A n : String) : strInfix n (A ++ n) := by
  have h := strInfix_of_append A n ""
  simpa using h

theorem strInfix_extend_right {n x : String} (h : strInfix n x)
    (B : String) : strInfix n (x ++ B) := by
  obtain ⟨s, t, hst⟩ := h
  exact ⟨s, t ++ B.data, by rw [String.data_append, ← hst]; simp⟩

theorem strInfix_extend_left (A : String) {n x : String}
    (h : strInfix n x) : strInfix n (A ++ x) := by
  obtain ⟨s, t, hst⟩ := h
  exact ⟨A.data ++ s, t, by rw [String.data_append, ← hst]; simp⟩

theorem pullRetryCmd_get4 (b : String) :
    (pullRetryCmd b).data[4]? = some 'p' := by
  have h1 : (4 : Nat) < ("git pull origin ").data.length := by decide
  have h2 : (4 : Nat) < (("git pull origin ").data ++ b.data).length := by
    rw [List.length_append]; omega
  show (("git pull origin " ++ b) ++ " --allow-unrelated-histories").data[4]?
    = some 'p'
  rw [String.data_append, String.data_append,
    List.getElem?_append_left h2, List.getElem?_append_left h1]
  decide

theorem ne_retry_of_get4 {s : String} (b : String)
    (h : s.data[4]? ≠ some 'p') : s ≠ pullRetryCmd b := by
  intro he
  rw [he, pullRetryCmd_get4] at h
  exact h rfl

theorem revparse_ne_retry (b : String) :
    "git rev-parse --is-inside-work-tree" ≠ pullRetryCmd b :=
  ne_retry_of_get4 b (by decide)

theorem gitinit_ne_retry (b : String) : "git init" ≠ pullRetryCmd b :=
  ne_retry_of_get4 b (by decide)

theorem geturl_ne_retry (b : String) :
    "git remote get-url origin" ≠ pullRetryCmd b :=
  ne_retry_of_get4 b (by decide)

theorem seturl_ne_retry (u b : String) :
    "git remote set-url origin " ++ u ≠ pullRetryCmd b := by
  apply ne_retry_of_get4
  have h1 : (4 : Nat) < ("git remote set-url origin ").data.length := by decide
  rw [String.data_append, List.getElem?_append_left h1]
  decide

theorem addurl_ne_retry (u b : String) :
    "git remote add origin " ++ u ≠ pullRetryCmd b := by
  apply ne_retry_of_get4
  have h1 : (4 : Nat) < ("git remote add origin ").data.length := by decide
  rw [String.data_append, List.getElem?_append_left h1]
  decide

theorem pullCmd_ne_retry (b : String) : pullCmd b ≠ pullRetryCmd b := by
  intro h
  have h2 := congrArg (fun s => s.data.length) h
  simp only [pullCmd, pullRetryCmd] at h2
  simp only [String.data_append, List.length_append] at h2
  have e1 : (" --allow-unrelated-histories").data.length = 28 := by decide
  rw [e1] at h2
  omega

/-- `init_data_repo` never issues the fallback pull command: its trace
holds, beyond the inherited prefix, only repo-check, init and remote
commands. -/
theorem init_count_retry (exec : GitExec) (url : String) (tr : List String)
    (b : String)
    (d1 : ("git rev-parse --is-inside-work-tree" == b) = false)
    (d2 : ("git init" == b) = false)
    (d3 : ("git remote get-url origin" == b) = false)
    (d4 : (("git remote set-url origin " ++ url) == b) = false)
    (d5 : (("git remote add origin " ++ url) == b) = false) :
    ((init_data_repo exec url tr).2.1).count b = tr.count b := by
  simp only [init_data_repo, isRepoCall]
  by_cases h1 : ((exec "git rev-parse --is-inside-work-tree").rc == 0
      && (pytrim (exec "git rev-parse --is-inside-work-tree").out == "true")) = true <;>
  by_cases h2 : ((exec "git init").rc == 0) = true <;>
  by_cases h3 : pytrim url = "" <;>
  by_cases h4 : ((exec "git remote get-url origin").rc == 0) = true <;>
  by_cases h5 : ((exec ("git remote set-url origin " ++ url)).rc == 0) = true <;>
  by_cases h6 : ((exec ("git remote add origin " ++ url)).rc == 0) = true <;>
  simp [h1, h2, h3, h4, h5, h6, List.count_append, List.count_cons,
    List.count_nil, d1, d2, d3, d4, d5]

/-- Neither does the pre-phase of the sync layer's `git_pull`. -/
theorem gitPullPre_count (exec : GitExec) (url : String) (b : String)
    (d1 : ("git rev-parse --is-inside-work-tree" == b) = false)
    (d2 : ("git init" == b) = false)
    (d3 : ("git remote get-url origin" == b) = false)
    (d4 : (("git remote set-url origin " ++ url) == b) = false)
    (d5 : (("git remote add origin " ++ url) == b) = false) :
    ((gitPullPre exec url).2).count b = 0 := by
  unfold gitPullPre
  by_cases h1 : (!(isRepoCall exec []).1) = true
  · rw [if_pos h1]
    show (init_data_repo exec url (isRepoCall exec []).2).2.1.count b = 0
    rw [init_count_retry exec url _ b d1 d2 d3 d4 d5]
    show (([] : List String) ++ ["git rev-parse --is-inside-work-tree"]).count b
      = 0
    simp [List.count_append, List.count_cons, List.count_nil, d1]
  · rw [if_neg h1]
    by_cases h2 : pytrim url ≠ ""
    · rw [if_pos h2]
      show ((([] : List String) ++ ["git rev-parse --is-inside-work-tree"])
        ++ ["git remote set-url origin " ++ url]).count b = 0
      simp [List.count_append, List.count_cons, List.count_nil, d1, d4]
    · rw [if_neg h2]
      show (([] : List String) ++ ["git rev-parse --is-inside-work-tree"]).count b
        = 0
      simp [List.count_append, List.count_cons, List.count_nil, d1]

theorem gitUtilsPull_early_tr (exec : GitExec) (url branch : String)
    (hck : (exec "git remote get-url origin").rc ≠ 0) :
    (gitUtilsPull exec url branch).2
      = (gitPullPre exec url).2 ++ ["git remote get-url origin"] := by
  unfold gitUtilsPull
  rw [if_pos hck]

theorem gitUtilsPull_plain_tr (exec : GitExec) (url branch : String)
    (hck : ¬ (exec "git remote get-url origin").rc ≠ 0)
    (hp : (exec (pullCmd branch)).rc = 0) :
    (gitUtilsPull exec url branch).2
      = (gitPullPre exec url).2 ++ ["git remote get-url origin"]
        ++ [pullCmd branch] := by
  unfold gitUtilsPull
  rw [if_neg hck, if_pos hp]

theorem gitUtilsPull_retry_tr (exec : GitExec) (url branch : String)
    (hck : ¬ (exec "git remote get-url origin").rc ≠ 0)
    (hp : ¬ (exec (pullCmd branch)).rc = 0) :
    (gitUtilsPull exec url branch).2
      = (gitPullPre exec url).2 ++ ["git remote get-url origin"]
        ++ [pullCmd branch] ++ [pullRetryCmd branch] := by
  unfold gitUtilsPull
  rw [if_neg hck, if_neg hp]
  by_cases hr2 : (exec (pullRetryCmd branch)).rc = 0
  · rw [if_pos hr2]
  · rw [if_neg hr2]

theorem gitUtilsPull_retry_ok_out (exec : GitExec) (url branch : String)
    (hck : ¬ (exec "git remote get-url origin").rc ≠ 0)
    (hp : ¬ (exec (pullCmd branch)).rc = 0)
    (hr2 : (exec (pullRetryCmd branch)).rc = 0) :
    (gitUtilsPull exec url branch).1
      = (if (exec (pullCmd branch)).err ≠ "" then
            (gitPullPre exec url).1 ++ "=== git pull origin " ++ branch
              ++ " ===\n" ++ "Return code: "
              ++ toString (exec (pullCmd branch)).rc ++ "\n\n" ++ "stdout:\n"
              ++ (exec (pullCmd branch)).out ++ "\n\n"
              ++ "stderr:\n" ++ (exec (pullCmd branch)).err ++ "\n"
          else
            (gitPullPre exec url).1 ++ "=== git pull origin " ++ branch
              ++ " ===\n" ++ "Return code: "
              ++ toString (exec (pullCmd branch)).rc ++ "\n\n" ++ "stdout:\n"
              ++ (exec (pullCmd branch)).out ++ "\n\n")
          ++ "\n第一次拉取？尝试使用 --allow-unrelated-histories...\n"
          ++ "\n" ++ (exec (pullRetryCmd branch)).out ++ "\n"
          ++ "\n✓ 成功拉取远程更新" := by
  unfold gitUtilsPull
  rw [if_neg hck, if_neg hp, if_pos hr2]

theorem gitUtilsPull_retry_fail_out (exec : GitExec) (url branch : String)
    (hck : ¬ (exec "git remote get-url origin").rc ≠ 0)
    (hp : ¬ (exec (pullCmd branch)).rc = 0)
    (hr2 : ¬ (exec (pullRetryCmd branch)).rc = 0) :
    (gitUtilsPull exec url branch).1
      = (if (exec (pullCmd branch)).err ≠ "" then
            (gitPullPre exec url).1 ++ "=== git pull origin " ++ branch
              ++ " ===\n" ++ "Return code: "
              ++ toString (exec (pullCmd branch)).rc ++ "\n\n" ++ "stdout:\n"
              ++ (exec (pullCmd branch)).out ++ "\n\n"
              ++ "stderr:\n" ++ (exec (pullCmd branch)).err ++ "\n"
          else
            (gitPullPre exec url).1 ++ "=== git pull origin " ++ branch
              ++ " ===\n" ++ "Return code: "
              ++ toString (exec (pullCmd branch)).rc ++ "\n\n" ++ "stdout:\n"
              ++ (exec (pullCmd branch)).out ++ "\n\n")
          ++ "\n第一次拉取？尝试使用 --allow-unrelated-histories...\n"
          ++ "\n" ++ (exec (pullRetryCmd branch)).out ++ "\n"
          ++ "\n❌ 拉取失败" := by
  unfold gitUtilsPull
  rw [if_neg hck, if_neg hp, if_neg hr2]

/-- A git oracle whose plain `git pull origin main` exits non-zero while
every other command succeeds; the repository check reports a work tree. -/
def execPullFail : GitExec := fun cmd =>
  if cmd = "git rev-parse --is-inside-work-tree" then ⟨0, "true\n", ""⟩
  else if cmd = "git pull origin main" then
    ⟨1, "", "fatal: couldn't find remote ref main"⟩
  else ⟨0, "pulled", ""⟩

theorem getK_normalize (r : Rec) (k : String) :
    getK (normalize_record r) k = normGet (fun s => getK r s) k :=
  congrFun (recGet_normalize r) k

/-- Shared idempotence of `normalize_record` on the `get` view. -/
theorem normalize_record_idem_getK (r : Rec) (k : String) :
    getK (normalize_record (normalize_record r)) k
      = getK (normalize_record r) k := by
  have h1 := recGet_normalize r
  have h2 := recGet_normalize (normalize_record r)
  have h3 : recGet (normalize_record (normalize_record r))
      = recGet (normalize_record r) := by
    rw [h2, h1, normGet_idem]
  exact congrFun h3 k

/-- C1: the schema migration `normalize_record` is idempotent — for every
raw record `r`, `normalize_record (normalize_record r)` equals
`normalize_record r` as a Python dict, i.e. both map every key to the same
value (Python `==` on dicts is exactly this order-insensitive pointwise
equality). -/
theorem claim_C1_normalize_idempotent (r : Rec) (k : String) :
    getK (normalize_record (normalize_record r)) k
      = getK (normalize_record r) k :=
  normalize_record_idem_getK r k

/-- C6: loading a corrupted container never fails visibly: the original
bytes move to the backup file, the container is reset to the empty valid
container, the solutions directory is untouched, the returned collection is
empty, and a subsequent `_save` writes a valid container. -/
theorem claim_C6_corruption_recovery (raw : String)
    (backup : Option FileBytes) (sols : List (String × String)) :
    loadStep ⟨.invalid raw, backup, sols⟩
      = (⟨.valid [], some (.invalid raw), sols⟩, [])
    ∧ ∀ items : List Rec,
        (saveStep ⟨.valid [], some (.invalid raw), sols⟩ items).dataFile
          = .valid (items.map (fun r => popK r "has_solution")) :=
  ⟨rfl, fun _ => rfl⟩

/-- Shared helper: a normalized record with a true `solved` flag carries
`null` in both unsolved fields. -/
theorem normalize_solved_true_clears (r : Rec)
    (h : getK (normalize_record r) "solved" = some (.bool true)) :
    getK (normalize_record r) "unsolved_stage" = some .null
      ∧ getK (normalize_record r) "unsolved_custom_label" = some .null := by
  have hm : normGet (fun s => getK r s) "solved" = some (.bool true) := by
    rw [← getK_normalize]
    exact h
  have ht : pyTruthy (fgetD (normGet (fun s => getK r s)) "solved") = true := by
    rw [fgetD, hm]
    rfl
  constructor
  · rw [getK_normalize]
    exact normGet_stage_of_truthy _ ht
  · rw [getK_normalize]
    exact normGet_label_of_truthy _ ht

theorem validateProblemIn_solved (q : ProblemIn) :
    (validateProblemIn q).solved = q.solved := by
  unfold validateProblemIn
  by_cases h : q.solved <;> simp [h]

theorem validateProblemIn_clears (q : ProblemIn) (hq : q.solved = true) :
    (validateProblemIn q).unsolved_stage = none
      ∧ (validateProblemIn q).unsolved_custom_label = none := by
  unfold validateProblemIn
  simp [hq]

theorem create_problem_solved_clears (item : ProblemIn) (pid now : String)
    (sols : List (String × String))
    (h : getK (create_problem item pid now sols) "solved"
      = some (.bool true)) :
    getK (create_problem item pid now sols) "unsolved_stage" = some .null
      ∧ getK (create_problem item pid now sols) "unsolved_custom_label"
          = some .null := by
  have hsol : getK (create_problem item pid now sols) "solved"
      = some (.bool (validateProblemIn
          (if (validateProblemIn item).solved then
            { validateProblemIn item with
              unsolved_stage := none, unsolved_custom_label := none }
          else validateProblemIn item)).solved) := rfl
  rw [hsol] at h
  have hs3 : (validateProblemIn
      (if (validateProblemIn item).solved then
        { validateProblemIn item with
          unsolved_stage := none, unsolved_custom_label := none }
      else validateProblemIn item)).solved = true := by
    have := Option.some.inj h
    exact JVal.bool.inj this
  have hs2 : (if (validateProblemIn item).solved then
      { validateProblemIn item with
        unsolved_stage := none, unsolved_custom_label := none }
    else validateProblemIn item).solved = true := by
    rw [← validateProblemIn_solved]
    exact hs3
  have hcl := validateProblemIn_clears _ hs2
  constructor
  · have hst : getK (create_problem item pid now sols) "unsolved_stage"
        = some (optStr ((validateProblemIn
            (if (validateProblemIn item).solved then
              { validateProblemIn item with
                unsolved_stage := none, unsolved_custom_label := none }
            else validateProblemIn item)).unsolved_stage.map
          UnsolvedStage.toText)) := rfl
    rw [hst, hcl.1]
    rfl
  · have hlb : getK (create_problem item pid now sols) "unsolved_custom_label"
        = some (optStr (validateProblemIn
            (if (validateProblemIn item).solved then
              { validateProblemIn item with
                unsolved_stage := none, unsolved_custom_label := none }
            else validateProblemIn item)).unsolved_custom_label) := rfl
    rw [hlb, hcl.2]
    rfl

/-- C5: a normalized record with `solved == true` carries `null` in both
`unsolved_stage` and `unsolved_custom_label`; the same invariant holds for
the record stored and returned by the create operation and for the record
written back by the update operation. -/
theorem claim_C5_solved_invariant :
    (∀ r : Rec, getK (normalize_record r) "solved" = some (.bool true) →
      getK (normalize_record r) "unsolved_stage" = some .null
        ∧ getK (normalize_record r) "unsolved_custom_label" = some .null)
    ∧ (∀ (item : ProblemIn) (pid now : String)
        (sols : List (String × String)),
        getK (create_problem item pid now sols) "solved" = some (.bool true) →
        getK (create_problem item pid now sols) "unsolved_stage" = some .null
          ∧ getK (create_problem item pid now sols) "unsolved_custom_label"
              = some .null)
    ∧ (∀ (rec : Rec) (item : ProblemIn) (now : String),
        getK (update_problem_record rec item now) "solved"
            = some (.bool true) →
        getK (update_problem_record rec item now) "unsolved_stage"
            = some .null
          ∧ getK (update_problem_record rec item now) "unsolved_custom_label"
              = some .null) :=
  ⟨fun r h => normalize_solved_true_clears r h,
   fun item pid now sols h => create_problem_solved_clears item pid now sols h,
   fun _ _ _ h => normalize_solved_true_clears _ h⟩

/-- C5 witness: at a concrete solved record the invariant evaluates as
stated. -/
theorem claim_C5_witness :
    getK (normalize_record
        [("solved", .bool true), ("unsolved_stage", .str "未看题"),
         ("unsolved_custom_label", .str "x")]) "unsolved_stage" = some .null
    ∧ getK (normalize_record
        [("solved", .bool true), ("unsolved_stage", .str "未看题"),
         ("unsolved_custom_label", .str "x")]) "unsolved_custom_label"
        = some .null :=
  claim_C5_solved_invariant.1
    [("solved", .bool true), ("unsolved_stage", .str "未看题"),
     ("unsolved_custom_label", .str "x")] rfl

theorem normGet_pass_pres (g : String → Option JVal)
    (h : (g "pass_count").isSome) : (normGet g "pass_count").isSome := by
  rw [normGet_eq_final_pre, normFinalF_other _ _ (by simp) (by simp)]
  unfold normPre
  rw [normAssigneeF_other _ _ _ (by simp)]
  have hD : normTagsF (normLabelF (normStageF (normSolvedF
      (fdrop (fdrop g "has_solution") "owner")))) "pass_count"
      = g "pass_count" := by
    rw [normTagsF_other _ _ (by simp), normLabelF_other _ _ (by simp),
      normStageF_other _ _ (by simp), normSolvedF_other _ _ (by simp),
      fdrop_other (by simp), fdrop_other (by simp)]
  unfold normPassF
  by_cases hc : ((normTagsF (normLabelF (normStageF (normSolvedF
      (fdrop (fdrop g "has_solution") "owner")))) "pass_count").isSome
      && !(fgetD (normTagsF (normLabelF (normStageF (normSolvedF
        (fdrop (fdrop g "has_solution") "owner"))))) "pass_count").isNull)
      = true
  · rw [if_pos hc]
    rcases hp : pyInt (fgetD (normTagsF (normLabelF (normStageF (normSolvedF
        (fdrop (fdrop g "has_solution") "owner"))))) "pass_count") with _ | n
    · rfl
    · rfl
  · rw [if_neg hc, hD]
    exact h

/-- C10: `normalize_record` removes no input key other than `owner` and
`has_solution`: every other input key is still present after normalization,
and keys outside the explicitly normalized set (solved, unsolved_stage,
unsolved_custom_label, tags, pass_count, assignee) — in particular the
deprecated legacy `status` field — keep their value unchanged, so untouched
legacy fields persist in the container. -/
theorem claim_C10_frame (r : Rec) (k : String) :
    (¬ k ∈ normKeys → getK (normalize_record r) k = getK r k)
    ∧ (¬ k = "owner" → ¬ k = "has_solution" → (getK r k).isSome →
        (getK (normalize_record r) k).isSome) := by
  constructor
  · intro hk
    rw [getK_normalize]
    exact normGet_other _ _ hk
  · intro how hhs hsome
    by_cases hm : k ∈ normKeys
    · simp only [normKeys, List.mem_cons, List.mem_singleton] at hm
      rcases hm with h | h | h | h | h | h | h | h | h
      · exact absurd h hhs
      · exact absurd h how
      · subst h
        rw [getK_normalize]
        exact normGet_solved_isSome _
      · subst h
        rw [getK_normalize]
        rcases normGet_stage_char (fun s => getK r s) with hc | ⟨s, hc, _⟩ <;>
          rw [hc] <;> rfl
      · subst h
        rw [getK_normalize]
        by_cases ht : pyTruthy (fgetD (normGet (fun s => getK r s)) "solved")
            = true
        · rw [normGet_label_of_truthy _ ht]
          rfl
        · rw [Bool.not_eq_true] at ht
          rcases normGet_label_char (fun s => getK r s) ht
            with hc | ⟨t, hc, _, _⟩ <;> rw [hc] <;> rfl
      · subst h
        rw [getK_normalize]
        obtain ⟨tv, hc, _⟩ := normGet_tags_char (fun s => getK r s)
        rw [hc]
        rfl
      · subst h
        rw [getK_normalize]
        exact normGet_pass_pres _ hsome
      · subst h
        rw [getK_normalize]
        rcases normGet_assignee_char (fun s => getK r s)
          with hc | ⟨t, hc, _, _⟩ <;> rw [hc] <;> rfl
      · simp at h
    · rw [getK_normalize]
      rw [normGet_other _ _ hm]
      exact hsome

/-- C10 witness: the legacy `status` field of a concrete record survives
normalization unchanged and stays present. -/
theorem claim_C10_witness :
    getK (normalize_record [("status", .str "Done"), ("owner", .str "o")])
        "status"
      = getK [("status", .str "Done"), ("owner", .str "o")] "status"
    ∧ (getK (normalize_record
        [("status", .str "Done"), ("owner", .str "o")]) "status").isSome :=
  ⟨(claim_C10_frame [("status", .str "Done"), ("owner", .str "o")]
      "status").1 (by decide),
   (claim_C10_frame [("status", .str "Done"), ("owner", .str "o")]
      "status").2 (by decide) (by decide) rfl⟩

/-- C3 counterexample: a contest record whose first problem entry supplies
`letter: "Z"` keeps that letter through `normalize_contest` — the output
letter at position 0 is not the 0-th alphabet letter "A". -/
theorem claim_C3_counterexample :
    normalize_contest
        [("total_problems", .int 1),
         ("problems", .arr [.obj [("letter", .str "Z")]])]
      = some [("total_problems", .int 1),
         ("problems", .arr [.obj [("letter", .str "Z"),
           ("pass_count", .int 0), ("attempt_count", .int 0),
           ("my_status", .str "unsubmitted")]])]
    ∧ contestLetter
        [("total_problems", .int 1),
         ("problems", .arr [.obj [("letter", .str "Z"),
           ("pass_count", .int 0), ("attempt_count", .int 0),
           ("my_status", .str "unsubmitted")]])] 0
        ≠ some (.str "A") := by
  constructor
  · rfl
  · intro h
    have : ("Z" : String) = "A" := by
      have h1 : (JVal.str "Z") = .str "A" := Option.some.inj (by
        rw [← h]
        rfl)
      exact JVal.str.inj h1
    simp at this

/-- C3 amended: every `normalize_contest` output has a `problems` list of
length exactly `total_problems`; the i-th entry's letter is the i-th
alphabet letter whenever the i-th input entry is absent, not a dict, or
lacks a `letter` key — but an input-supplied `letter` value is preserved
as-is. -/
theorem claim_C3_contest_shape (rec out : Rec)
    (h : normalize_contest rec = some out) :
    ∃ elems ps,
      contestElems (setK rec "total_problems" (.int (contestTotal rec)))
          = some elems
      ∧ getK out "problems" = some (.arr ps)
      ∧ ps.length = (contestTotal rec).toNat
      ∧ getK out "total_problems" = some (.int (contestTotal rec))
      ∧ ∀ i, i < ps.length →
          ∃ kvs, ps.get? i = some (.obj kvs)
            ∧ ((∃ okvs lv, elems.get? i = some (.obj okvs)
                  ∧ getK okvs "letter" = some lv
                  ∧ getK kvs "letter" = some lv)
               ∨ getK kvs "letter" = some (letterAt i)) := by
  have h2 : (match contestElems
        (setK rec "total_problems" (.int (contestTotal rec))) with
      | none => none
      | some elems =>
          some (setK (setK rec "total_problems" (.int (contestTotal rec)))
            "problems"
            (.arr ((List.range (contestTotal rec).toNat).map
              (fun i => JVal.obj (contestEntry elems i))))))
      = some out := h
  clear h
  rcases he : contestElems
      (setK rec "total_problems" (.int (contestTotal rec))) with _ | elems
  · rw [he] at h2
    exact absurd h2 (by simp)
  · rw [he] at h2
    have hout := (Option.some.inj h2).symm
    refine ⟨elems,
      (List.range (contestTotal rec).toNat).map
        (fun i => JVal.obj (contestEntry elems i)), ?_, ?_, ?_, ?_, ?_⟩
    · rfl
    · rw [hout, getK_setK, if_pos rfl]
    · simp
    · rw [hout, getK_setK, if_neg (by simp), getK_setK, if_pos rfl]
    · intro i hi
      simp only [List.length_map, List.length_range] at hi
      have hgot : ((List.range (contestTotal rec).toNat).map
          (fun j => JVal.obj (contestEntry elems j))).get? i
          = some (.obj (contestEntry elems i)) := by
        simp [List.getElem?_map, List.getElem?_range, hi]
      refine ⟨contestEntry elems i, hgot, ?_⟩
      unfold contestEntry
      rcases hei : elems.get? i with _ | v
      · right
        rfl
      · rcases v with _ | b | n | s | xs | kvs
        · right; rfl
        · right; rfl
        · right; rfl
        · right; rfl
        · right; rfl
        · rcases hl : getK kvs "letter" with _ | w
          · right
            show getK
              [("letter", (getK kvs "letter").getD (letterAt i)),
               ("pass_count", _), ("attempt_count", _), ("my_status", _)]
              "letter" = some (letterAt i)
            rw [getK, if_pos rfl, hl]
            rfl
          · left
            refine ⟨kvs, w, rfl, hl, ?_⟩
            show getK
              [("letter", (getK kvs "letter").getD (letterAt i)),
               ("pass_count", _), ("attempt_count", _), ("my_status", _)]
              "letter" = some w
            rw [getK, if_pos rfl, hl]
            rfl

/-- C3 witness: the shape invariants evaluated at a concrete contest record
with no problem entries supplied. -/
theorem claim_C3_witness :
    ∃ elems ps,
      contestElems (setK [("total_problems", JVal.int 2)] "total_problems"
          (.int (contestTotal [("total_problems", JVal.int 2)])))
          = some elems
      ∧ getK [("total_problems", JVal.int 2),
          ("problems", .arr
            [.obj [("letter", .str "A"), ("pass_count", .int 0),
              ("attempt_count", .int 0), ("my_status", .str "unsubmitted")],
             .obj [("letter", .str "B"), ("pass_count", .int 0),
              ("attempt_count", .int 0), ("my_status", .str "unsubmitted")]])]
          "problems" = some (.arr ps)
      ∧ ps.length = (contestTotal [("total_problems", JVal.int 2)]).toNat
      ∧ getK [("total_problems", JVal.int 2),
          ("problems", .arr
            [.obj [("letter", .str "A"), ("pass_count", .int 0),
              ("attempt_count", .int 0), ("my_status", .str "unsubmitted")],
             .obj [("letter", .str "B"), ("pass_count", .int 0),
              ("attempt_count", .int 0), ("my_status", .str "unsubmitted")]])]
          "total_problems"
          = some (.int (contestTotal [("total_problems", JVal.int 2)]))
      ∧ ∀ i, i < ps.length →
          ∃ kvs, ps.get? i = some (.obj kvs)
            ∧ ((∃ okvs lv, elems.get? i = some (.obj okvs)
                  ∧ getK okvs "letter" = some lv
                  ∧ getK kvs "letter" = some lv)
               ∨ getK kvs "letter" = some (letterAt i)) :=
  claim_C3_contest_shape [("total_problems", JVal.int 2)]
    [("total_problems", JVal.int 2),
     ("problems", .arr
       [.obj [("letter", .str "A"), ("pass_count", .int 0),
         ("attempt_count", .int 0), ("my_status", .str "unsubmitted")],
        .obj [("letter", .str "B"), ("pass_count", .int 0),
         ("attempt_count", .int 0), ("my_status", .str "unsubmitted")]])]
    rfl

theorem legacyProbe_spec {r : Rec} {k k2 : String} {v : JVal}
    (h : legacyProbe r k = some (k2, v)) :
    k2 = k ∧ getK r k = some v ∧ pyTruthy v = true := by
  unfold legacyProbe at h
  rcases hg : getK r k with _ | w
  · rw [hg] at h
    exact absurd h (by simp)
  · rw [hg] at h
    have h' : (if pyTruthy w = true then some (k, w) else none)
        = some (k2, v) := h
    by_cases ht : pyTruthy w = true
    · rw [if_pos ht] at h'
      obtain ⟨h1, h2⟩ := Prod.mk.inj (Option.some.inj h').symm
      subst h1
      subst h2
      exact ⟨rfl, rfl, ht⟩
    · rw [if_neg ht] at h'
      exact absurd h' (by simp)

theorem legacyProbe_eq_none_iff (r : Rec) (k : String) :
    legacyProbe r k = none ↔ pyTruthy (getKD r k) = false := by
  unfold legacyProbe getKD
  rcases hg : getK r k with _ | w
  · simp [pyTruthy]
  · by_cases ht : pyTruthy w = true <;> simp [ht]

theorem findLegacy_spec {r : Rec} {k : String} {v : JVal}
    (h : findLegacy r = some (k, v)) :
    k ∈ legacyKeys ∧ getK r k = some v ∧ pyTruthy v = true := by
  unfold findLegacy at h
  rcases h1 : legacyProbe r "solution_markdown" with _ | p1
  · rw [h1] at h
    rcases h2 : legacyProbe r "solution_md" with _ | p2
    · rw [h2] at h
      have hs := legacyProbe_spec h
      exact ⟨by rw [hs.1]; simp [legacyKeys], hs.1 ▸ hs.2.1, hs.2.2⟩
    · rw [h2] at h
      have h3 : p2 = (k, v) := Option.some.inj h
      subst h3
      have hs := legacyProbe_spec h2
      exact ⟨by rw [hs.1]; simp [legacyKeys], hs.1 ▸ hs.2.1, hs.2.2⟩
  · rw [h1] at h
    have h3 : p1 = (k, v) := Option.some.inj h
    subst h3
    have hs := legacyProbe_spec h1
    exact ⟨by rw [hs.1]; simp [legacyKeys], hs.1 ▸ hs.2.1, hs.2.2⟩

theorem findLegacy_eq_none_iff (r : Rec) :
    findLegacy r = none ↔ ∀ k ∈ legacyKeys, pyTruthy (getKD r k) = false := by
  unfold findLegacy
  constructor
  · intro h
    rcases h1 : legacyProbe r "solution_markdown" with _ | p1
    · rw [h1] at h
      rcases h2 : legacyProbe r "solution_md" with _ | p2
      · rw [h2] at h
        intro k hk
        simp only [legacyKeys, List.mem_cons, List.mem_singleton] at hk
        rcases hk with rfl | rfl | rfl | hk
        · exact (legacyProbe_eq_none_iff r _).mp h1
        · exact (legacyProbe_eq_none_iff r _).mp h2
        · exact (legacyProbe_eq_none_iff r _).mp h
        · simp at hk
      · rw [h2] at h
        exact absurd h (by simp [Option.or])
    · rw [h1] at h
      exact absurd h (by simp [Option.or])
  · intro h
    have h1 : legacyProbe r "solution_markdown" = none :=
      (legacyProbe_eq_none_iff r _).mpr (h _ (by simp [legacyKeys]))
    have h2 : legacyProbe r "solution_md" = none :=
      (legacyProbe_eq_none_iff r _).mpr (h _ (by simp [legacyKeys]))
    have h3 : legacyProbe r "solution" = none :=
      (legacyProbe_eq_none_iff r _).mpr (h _ (by simp [legacyKeys]))
    rw [h1, h2, h3]
    rfl

/-- C9: a container record holding non-empty text under a legacy solution
key but a falsy (or absent) id loses that text: `_load` pops the key
without writing any side-file, the triggered rewrite persists the container
without it, and the solutions directory is unchanged. -/
theorem claim_C9_orphan_solution_discarded (rec : Rec)
    (backup : Option FileBytes) (sols : List (String × String))
    (k : String) (v : JVal)
    (hleg : findLegacy rec = some (k, v))
    (hid : pyTruthy (getKD (popK rec k) "id") = false) :
    ((loadStep ⟨.valid [rec], backup, sols⟩).1.solutions = sols)
    ∧ (loadStep ⟨.valid [rec], backup, sols⟩).1.dataFile
        = .valid [popK (normalize_record (popK (popK rec k) "has_solution"))
            "has_solution"]
    ∧ getK (popK (normalize_record (popK (popK rec k) "has_solution"))
        "has_solution") k = none := by
  have hp : processRec sols rec
      = (normalize_record (popK (popK rec k) "has_solution"), sols, true) := by
    unfold processRec
    rw [hleg]
    simp [hid]
  have hm : migrateList sols [rec]
      = ([normalize_record (popK (popK rec k) "has_solution")], sols, true) := by
    unfold migrateList
    rw [hp]
    rfl
  have hks := findLegacy_spec hleg
  have hkcases := hks.1
  simp only [legacyKeys, List.mem_cons, List.mem_singleton,
    List.not_mem_nil, or_false] at hkcases
  have hne_hs : ¬ k = "has_solution" := by
    rcases hkcases with rfl | rfl | rfl <;> simp
  have hkn : ¬ k ∈ normKeys := by
    rcases hkcases with rfl | rfl | rfl <;> simp [normKeys]
  refine ⟨?_, ?_, ?_⟩
  · show (migrateList sols [rec]).2.1 = sols
    rw [hm]
  · show (if (migrateList sols [rec]).2.2 = true then
        FileBytes.valid ((migrateList sols [rec]).1.map
          (fun r => popK r "has_solution"))
      else FileBytes.valid [rec]) = _
    rw [hm]
    rfl
  · rw [getK_popK, if_neg hne_hs, getK_normalize, normGet_other _ _ hkn]
    show getK (popK (popK rec k) "has_solution") k = none
    rw [getK_popK, if_neg hne_hs, getK_popK, if_pos rfl]

/-- C9 witness: a concrete record with a legacy `solution` text and an
empty id loses the text without any side-file write. -/
theorem claim_C9_witness :
    ((loadStep ⟨.valid [[("solution", .str "note"), ("id", .str "")]],
        none, []⟩).1.solutions = [])
    ∧ (loadStep ⟨.valid [[("solution", .str "note"), ("id", .str "")]],
        none, []⟩).1.dataFile
        = .valid [popK (normalize_record (popK
            (popK [("solution", .str "note"), ("id", .str "")] "solution")
            "has_solution")) "has_solution"]
    ∧ getK (popK (normalize_record (popK
        (popK [("solution", .str "note"), ("id", .str "")] "solution")
        "has_solution")) "has_solution") "solution" = none :=
  claim_C9_orphan_solution_discarded
    [("solution", .str "note"), ("id", .str "")] none [] "solution"
    (.str "note") rfl rfl

theorem shellLex_commit_prefix (tail : List Char) :
    shellLex ('g' :: 'i' :: 't' :: ' ' :: 'c' :: 'o' :: 'm' :: 'm' :: 'i'
        :: 't' :: ' ' :: '-' :: 'm' :: ' ' :: '"' :: tail)
      .plain [] false [] []
      = shellLex tail .dq [] true ["-m", "commit", "git"] [] := rfl

theorem shellLex_dq_escaped (m : List Char)
    (hm : ∀ c ∈ m, c ≠ '\\' ∧ c ≠ '$' ∧ c ≠ '`')
    (cur : List Char) (ws : List String) (cmds : List (List String))
    (tail : List Char) :
    shellLex (escapeChars m ++ tail) .dq cur true ws cmds
      = shellLex tail .dq (m.reverse ++ cur) true ws cmds := by
  induction m generalizing cur with
  | nil => simp [escapeChars]
  | cons c m ih =>
      have hc := hm c (List.mem_cons_self c m)
      have hm2 : ∀ x ∈ m, x ≠ '\\' ∧ x ≠ '$' ∧ x ≠ '`' :=
        fun x hx => hm x (List.mem_cons_of_mem c hx)
      by_cases hq : c = '"'
      · subst hq
        have he : escapeChars ('"' :: m) ++ tail
            = '\\' :: '"' :: (escapeChars m ++ tail) := by
          simp [escapeChars]
        rw [he]
        have hstep : shellLex ('\\' :: '"' :: (escapeChars m ++ tail))
              .dq cur true ws cmds
            = shellLex (escapeChars m ++ tail) .dq ('"' :: cur)
              true ws cmds := rfl
        rw [hstep, ih hm2]
        simp
      · have he : escapeChars (c :: m) ++ tail
            = c :: (escapeChars m ++ tail) := by
          simp [escapeChars, hq]
        rw [he]
        have hstep : shellLex (c :: (escapeChars m ++ tail))
              .dq cur true ws cmds
            = shellLex (escapeChars m ++ tail) .dq (c :: cur)
              true ws cmds := by
          simp only [shellLex]
          rw [if_neg hq, if_neg hc.1, if_neg (by simp [hc.2.1, hc.2.2])]
        rw [hstep, ih hm2]
        simp

/-- C4 amended: the double-quote escaping keeps the commit message intact
as the single argument only for messages free of backslashes, `$` and
backticks: for those, the built command parses as exactly one command
`git commit -m <m>`.  (The counterexample shows a backslash-quote message
breaking out of the quotes and injecting further commands.) -/
theorem claim_C4_commit_quoting (m : String)
    (hm : ∀ c ∈ m.data, c ≠ '\\' ∧ c ≠ '$' ∧ c ≠ '`') :
    shellSplit (gitCommitCmd m) = some [["git", "commit", "-m", m]] := by
  unfold shellSplit gitCommitCmd
  have hdata : ("git commit -m \"" ++ escapeQuotes m ++ "\"").data
      = 'g' :: 'i' :: 't' :: ' ' :: 'c' :: 'o' :: 'm' :: 'm' :: 'i' :: 't'
        :: ' ' :: '-' :: 'm' :: ' ' :: '"'
        :: (escapeChars m.data ++ ['"']) := by
    rw [String.data_append, String.data_append, List.append_assoc]
    rfl
  rw [hdata, shellLex_commit_prefix,
    shellLex_dq_escaped m.data hm [] ["-m", "commit", "git"] [] ['"']]
  have hstep : shellLex ['"'] .dq (m.data.reverse ++ []) true
        ["-m", "commit", "git"] []
      = shellLex [] .plain (m.data.reverse ++ []) true
        ["-m", "commit", "git"] [] := rfl
  rw [hstep]
  rw [show (m.data.reverse ++ [] : List Char) = m.data.reverse from by simp]
  have hdone : shellLex [] .plain m.data.reverse true
        ["-m", "commit", "git"] []
      = some [(((⟨m.data.reverse.reverse⟩ : String)
          :: ["-m", "commit", "git"]).reverse)] := by
    simp [shellLex]
  rw [hdone, List.reverse_reverse]
  rfl

/-- C4 witness: a message containing escaped quotes (no backslash of its
own) survives intact as the single commit-message argument. -/
theorem claim_C4_witness :
    shellSplit (gitCommitCmd "say \"hi\"")
      = some [["git", "commit", "-m", "say \"hi\""]] :=
  claim_C4_commit_quoting "say \"hi\"" (by decide)

/-- C4 counterexample: the message `\"; touch pwned; \"` defeats the
quote-only escaping — the built command parses as three separate shell
commands, so the message is not passed as the single argument and extra
commands are injected. -/
theorem claim_C4_counterexample :
    shellSplit (gitCommitCmd "\\\"; touch pwned; \\\"")
      = some [["git", "commit", "-m", "\\"], ["touch", "pwned"], ["\\"]]
    ∧ some [["git", "commit", "-m", "\\"], ["touch", "pwned"], ["\\"]]
      ≠ some [["git", "commit", "-m", "\\\"; touch pwned; \\\""]] := by
  constructor
  · rfl
  · intro h
    have h1 := List.head_eq_of_cons_eq (Option.some.inj h)
    have h2 : ("\\" : String) = "\\\"; touch pwned; \\\"" := by
      have h3 := congrArg (fun l => l.getLast?) h1
      simp only [List.getLast?] at h3
      exact Option.some.inj h3
    simp at h2

theorem replaceCRLF_all :
    ∀ l : List Char, (replaceCRLF l).all pyIsSpace = l.all pyIsSpace
  | [] => rfl
  | [c] => rfl
  | c1 :: c2 :: rest => by
      by_cases h : c1 = '\r' ∧ c2 = '\n'
      · obtain ⟨h1, h2⟩ := h
        subst h1
        subst h2
        have ih := replaceCRLF_all rest
        simp [replaceCRLF, ih, show pyIsSpace '\n' = true from rfl,
          show pyIsSpace '\r' = true from rfl]
      · have ih := replaceCRLF_all (c2 :: rest)
        simp only [replaceCRLF, if_neg h, List.all_cons, ih]

theorem solGet_solDel (sols : List (String × String)) (pid : String) :
    solGet (solDel sols pid) pid = none := by
  induction sols with
  | nil => rfl
  | cons p rest ih =>
      obtain ⟨q, t⟩ := p
      by_cases h : q = pid
      · simpa [solDel, List.filter_cons, h] using ih
      · simp only [solDel, List.filter_cons] at ih ⊢
        simp only [h, decide_not]
        simp only [solGet, List.find?] at ih ⊢
        simp [h, ih]

theorem find_map_set (sols : List (String × String)) (pid t : String)
    (h : (sols.find? (fun p => p.1 = pid)).isSome) :
    ((sols.map (fun p => if p.1 = pid then (pid, t) else p)).find?
      (fun p => p.1 = pid)) = some (pid, t) := by
  induction sols with
  | nil => simp at h
  | cons p rest ih =>
      obtain ⟨q, u⟩ := p
      by_cases hq : q = pid
      · simp [List.find?, hq]
      · have h2 : (rest.find? (fun p => p.1 = pid)).isSome := by
          simpa [List.find?, hq] using h
        simp [List.find?, hq, ih h2]

theorem find_append_single (sols : List (String × String)) (pid t : String)
    (h : sols.find? (fun p => p.1 = pid) = none) :
    ((sols ++ [(pid, t)]).find? (fun p => p.1 = pid)) = some (pid, t) := by
  induction sols with
  | nil => simp [List.find?]
  | cons p rest ih =>
      obtain ⟨q, u⟩ := p
      by_cases hq : q = pid
      · simp [List.find?, hq] at h
      · have h2 : rest.find? (fun p => p.1 = pid) = none := by
          simpa [List.find?, hq] using h
        simp [List.find?, hq, ih h2]

theorem solGet_solSet (sols : List (String × String)) (pid t : String) :
    solGet (solSet sols pid t) pid = some t := by
  unfold solSet solGet
  by_cases h : (sols.find? (fun p => p.1 = pid)).isSome
  · rw [if_pos h, find_map_set sols pid t h]
    rfl
  · rw [if_neg h]
    rw [find_append_single sols pid t (by
      rcases hx : sols.find? (fun p => p.1 = pid) with _ | w
      · exact hx
      · rw [hx] at h
        simp at h)]
    rfl

/-- C8: for an existing problem identity, `put_solution` with empty or
whitespace-only text deletes any side-file and reports
`has_solution = false`; with non-blank text it creates/overwrites the
side-file (with the CRLF-normalized text) and reports
`has_solution = true`. -/
theorem claim_C8_put_solution (st : Store) (pid : String)
    (payload : Option String) (now : String)
    (hfind : ((loadStep st).2.find?
      (fun r => (getKD r "id").eqStr pid)).isSome) :
    ((payload.getD "").data.all pyIsSpace = true →
      ∃ st2 resp, put_solution st pid payload now = some (st2, resp)
        ∧ resp.has_solution = false ∧ solGet st2.solutions pid = none)
    ∧ ((payload.getD "").data.all pyIsSpace = false →
      ∃ st2 resp, put_solution st pid payload now = some (st2, resp)
        ∧ resp.has_solution = true
        ∧ solGet st2.solutions pid
            = some (⟨replaceCRLF (payload.getD "").data⟩ : String)) := by
  rw [Option.isSome_iff_exists] at hfind
  obtain ⟨r, hr⟩ := hfind
  have hblank : pytrim (⟨replaceCRLF (payload.getD "").data⟩ : String) = ""
      ↔ (payload.getD "").data.all pyIsSpace = true := by
    rw [pytrim_eq_empty_iff]
    show (replaceCRLF (payload.getD "").data).all pyIsSpace = true ↔ _
    rw [replaceCRLF_all]
  constructor
  · intro hall
    refine ⟨saveStep
        { (loadStep st).1 with
          solutions := solDel (loadStep st).1.solutions pid }
        (updateFirst (fun r => (getKD r "id").eqStr pid)
          (fun r => setK (setK r "has_solution" (.bool false)) "updated_at"
            (.str now)) (loadStep st).2),
      ⟨false, now⟩, ?_, rfl, ?_⟩
    · show (match (loadStep st).2.find?
          (fun r => (getKD r "id").eqStr pid) with
        | none => none
        | some _ =>
            if pytrim (⟨replaceCRLF (payload.getD "").data⟩ : String)
                = "" then
              some (saveStep
                { (loadStep st).1 with
                  solutions := solDel (loadStep st).1.solutions pid }
                (updateFirst (fun r => (getKD r "id").eqStr pid)
                  (fun r => setK (setK r "has_solution" (.bool false))
                    "updated_at" (.str now)) (loadStep st).2),
              (⟨false, now⟩ : PutSolutionResp))
            else
              some (saveStep
                { (loadStep st).1 with
                  solutions := solSet (loadStep st).1.solutions pid
                    (⟨replaceCRLF (payload.getD "").data⟩ : String) }
                (updateFirst (fun r => (getKD r "id").eqStr pid)
                  (fun r => setK (setK r "has_solution" (.bool true))
                    "updated_at" (.str now)) (loadStep st).2),
              (⟨true, now⟩ : PutSolutionResp))) = _
      rw [hr, if_pos (hblank.mpr hall)]
    · show solGet (solDel (loadStep st).1.solutions pid) pid = none
      exact solGet_solDel _ _
  · intro hall
    have hnb : ¬ pytrim (⟨replaceCRLF (payload.getD "").data⟩ : String)
        = "" := by
      intro hx
      rw [hblank.mp hx] at hall
      exact absurd hall (by simp)
    refine ⟨saveStep
        { (loadStep st).1 with
          solutions := solSet (loadStep st).1.solutions pid
            (⟨replaceCRLF (payload.getD "").data⟩ : String) }
        (updateFirst (fun r => (getKD r "id").eqStr pid)
          (fun r => setK (setK r "has_solution" (.bool true)) "updated_at"
            (.str now)) (loadStep st).2),
      ⟨true, now⟩, ?_, rfl, ?_⟩
    · show (match (loadStep st).2.find?
          (fun r => (getKD r "id").eqStr pid) with
        | none => none
        | some _ =>
            if pytrim (⟨replaceCRLF (payload.getD "").data⟩ : String)
                = "" then
              some (saveStep
                { (loadStep st).1 with
                  solutions := solDel (loadStep st).1.solutions pid }
                (updateFirst (fun r => (getKD r "id").eqStr pid)
                  (fun r => setK (setK r "has_solution" (.bool false))
                    "updated_at" (.str now)) (loadStep st).2),
              (⟨false, now⟩ : PutSolutionResp))
            else
              some (saveStep
                { (loadStep st).1 with
                  solutions := solSet (loadStep st).1.solutions pid
                    (⟨replaceCRLF (payload.getD "").data⟩ : String) }
                (updateFirst (fun r => (getKD r "id").eqStr pid)
                  (fun r => setK (setK r "has_solution" (.bool true))
                    "updated_at" (.str now)) (loadStep st).2),
              (⟨true, now⟩ : PutSolutionResp))) = _
      rw [hr, if_neg hnb]
    · show solGet (solSet (loadStep st).1.solutions pid
        (⟨replaceCRLF (payload.getD "").data⟩ : String)) pid = _
      exact solGet_solSet _ _ _

/-- C8 witness: blank text against a concrete store with an existing
side-file leaves it absent and reports false. -/
theorem claim_C8_witness :
    (∃ st2 resp,
      put_solution ⟨.valid [[("id", .str "p1")]], none, [("p1", "old")]⟩
          "p1" (some "  ") "T" = some (st2, resp)
        ∧ resp.has_solution = false ∧ solGet st2.solutions "p1" = none) :=
  (claim_C8_put_solution ⟨.valid [[("id", .str "p1")]], none,
    [("p1", "old")]⟩ "p1" (some "  ") "T" rfl).1 rfl

/-- The exact condition under which a record sets the `changed` flag of the
migration pass: a truthy legacy solution key, or a stored `has_solution`
key with a non-`None` value.  Normalization-only changes (defaulting
`solved`, dropping `owner`, …) are not captured by the flag. -/
def changedRec (r : Rec) : Bool :=
  (findLegacy r).isSome || !(getKD r "has_solution").isNull

theorem processRec_changed (sols : List (String × String)) (r : Rec) :
    (processRec sols r).2.2 = changedRec r := by
  unfold processRec changedRec
  rcases hf : findLegacy r with _ | ⟨k, v⟩
  · rfl
  · rfl

theorem migrateList_changed (sols : List (String × String))
    (items : List Rec) :
    (migrateList sols items).2.2 = items.any changedRec := by
  induction items generalizing sols with
  | nil => rfl
  | cons r rs ih =>
      show ((processRec sols r).2.2
          || (migrateList (processRec sols r).2.1 rs).2.2)
        = (r :: rs).any changedRec
      rw [processRec_changed, ih, List.any_cons]

/-- At most one legacy solution key of the record holds a truthy value. -/
def atMostOneLegacy (r : Rec) : Prop :=
  ∀ k1 ∈ legacyKeys, ∀ k2 ∈ legacyKeys,
    pyTruthy (getKD r k1) = true → pyTruthy (getKD r k2) = true → k1 = k2

theorem getK_normalize_hs (r : Rec) :
    getK (normalize_record r) "has_solution" = none := by
  rw [getK_normalize]
  exact normGet_hs _

theorem popK_normalize_hs (r : Rec) :
    popK (normalize_record r) "has_solution" = normalize_record r :=
  popK_eq_self _ _ (getK_normalize_hs r)

theorem legacy_not_norm {k : String} (h : k ∈ legacyKeys) :
    ¬ k ∈ normKeys ∧ ¬ k = "has_solution" := by
  simp only [legacyKeys, List.mem_cons, List.mem_singleton,
    List.not_mem_nil, or_false] at h
  rcases h with rfl | rfl | rfl <;> exact ⟨by simp [normKeys], by simp⟩

theorem processRec_shape (sols : List (String × String)) (r : Rec) :
    ∃ y, (processRec sols r).1 = normalize_record y := by
  rcases hf : findLegacy r with _ | ⟨k, v⟩
  · exact ⟨popK r "has_solution", by unfold processRec; rw [hf]⟩
  · exact ⟨popK (popK r k) "has_solution", by unfold processRec; rw [hf]⟩

theorem processRec_out_clean (sols : List (String × String)) (r : Rec)
    (hone : atMostOneLegacy r) :
    findLegacy (processRec sols r).1 = none
      ∧ getK (processRec sols r).1 "has_solution" = none := by
  rcases hf : findLegacy r with _ | ⟨k0, v0⟩
  · have hout : (processRec sols r).1
        = normalize_record (popK r "has_solution") := by
      unfold processRec
      rw [hf]
    refine ⟨?_, by rw [hout]; exact getK_normalize_hs _⟩
    rw [hout, findLegacy_eq_none_iff]
    intro lk hlk
    have hlk2 := legacy_not_norm hlk
    rw [getKD, getK_normalize, normGet_other _ _ hlk2.1]
    show pyTruthy ((getK (popK r "has_solution") lk).getD .null) = false
    rw [getK_popK, if_neg hlk2.2]
    exact (findLegacy_eq_none_iff r).mp hf lk hlk
  · have hspec := findLegacy_spec hf
    have hout : (processRec sols r).1
        = normalize_record (popK (popK r k0) "has_solution") := by
      unfold processRec
      rw [hf]
    refine ⟨?_, by rw [hout]; exact getK_normalize_hs _⟩
    rw [hout, findLegacy_eq_none_iff]
    intro lk hlk
    have hlk2 := legacy_not_norm hlk
    rw [getKD, getK_normalize, normGet_other _ _ hlk2.1]
    show pyTruthy ((getK (popK (popK r k0) "has_solution") lk).getD .null)
      = false
    rw [getK_popK, if_neg hlk2.2, getK_popK]
    by_cases hk : lk = k0
    · rw [if_pos hk]
      rfl
    · rw [if_neg hk]
      by_cases ht : pyTruthy ((getK r lk).getD .null) = true
      · exact absurd (hone lk hlk k0 hspec.1 ht
          (by show pyTruthy ((getK r k0).getD .null) = true
              rw [hspec.2.1]
              exact hspec.2.2)) hk
      · rw [Bool.not_eq_true] at ht
        exact ht

theorem processRec_clean (sols : List (String × String)) (r : Rec)
    (h1 : findLegacy r = none) (h2 : getK r "has_solution" = none) :
    processRec sols r = (normalize_record r, sols, false) := by
  unfold processRec
  rw [h1]
  show (normalize_record (popK r "has_solution"), sols,
    !(getKD r "has_solution").isNull) = _
  rw [popK_eq_self r _ h2]
  have h3 : getKD r "has_solution" = .null := by
    rw [getKD, h2]
    rfl
  rw [h3]
  rfl

theorem processRec_sols_of_none (sols : List (String × String)) (r : Rec)
    (h : findLegacy r = none) : (processRec sols r).2.1 = sols := by
  unfold processRec
  rw [h]

theorem migrateList_sols_of_none (sols : List (String × String))
    (items : List Rec) (h : ∀ r ∈ items, findLegacy r = none) :
    (migrateList sols items).2.1 = sols := by
  induction items generalizing sols with
  | nil => rfl
  | cons r rs ih =>
      show (migrateList (processRec sols r).2.1 rs).2.1 = sols
      rw [processRec_sols_of_none sols r (h r (by simp)),
        ih sols (fun x hx => h x (by simp [hx]))]

theorem migrateList_clean (sols : List (String × String))
    (items : List Rec)
    (h : ∀ r ∈ items, findLegacy r = none ∧ getK r "has_solution" = none) :
    migrateList sols items = (items.map normalize_record, sols, false) := by
  induction items generalizing sols with
  | nil => rfl
  | cons r rs ih =>
      have hp := processRec_clean sols r (h r (by simp)).1 (h r (by simp)).2
      show ((processRec sols r).1 :: (migrateList (processRec sols r).2.1 rs).1,
        (migrateList (processRec sols r).2.1 rs).2.1,
        (processRec sols r).2.2
          || (migrateList (processRec sols r).2.1 rs).2.2) = _
      rw [hp]
      rw [ih sols (fun x hx => h x (by simp [hx]))]
      rfl

theorem migrateList_out_clean (sols : List (String × String))
    (items : List Rec) (hone : ∀ r ∈ items, atMostOneLegacy r) :
    ∀ x ∈ (migrateList sols items).1,
      findLegacy x = none ∧ getK x "has_solution" = none := by
  induction items generalizing sols with
  | nil => intro x hx; simp [migrateList] at hx
  | cons r rs ih =>
      intro x hx
      have hx2 : x = (processRec sols r).1
          ∨ x ∈ (migrateList (processRec sols r).2.1 rs).1 := by
        simpa [migrateList] using hx
      rcases hx2 with rfl | hx3
      · exact processRec_out_clean sols r (hone r (by simp))
      · exact ih _ (fun y hy => hone y (by simp [hy])) x hx3

theorem migrateList_out_shape (sols : List (String × String))
    (items : List Rec) :
    ∀ x ∈ (migrateList sols items).1, ∃ y, x = normalize_record y := by
  induction items generalizing sols with
  | nil => intro x hx; simp [migrateList] at hx
  | cons r rs ih =>
      intro x hx
      have hx2 : x = (processRec sols r).1
          ∨ x ∈ (migrateList (processRec sols r).2.1 rs).1 := by
        simpa [migrateList] using hx
      rcases hx2 with rfl | hx3
      · obtain ⟨y, hy⟩ := processRec_shape sols r
        exact ⟨y, hy⟩
      · exact ih _ x hx3

theorem changedRec_false_legacy {r : Rec} (h : changedRec r = false) :
    findLegacy r = none := by
  unfold changedRec at h
  rcases hx : findLegacy r with _ | p
  · rfl
  · rw [hx] at h
    simp at h

theorem map_sanitize_id (l : List Rec)
    (h : ∀ x ∈ l, getK x "has_solution" = none) :
    l.map (fun r => popK r "has_solution") = l := by
  induction l with
  | nil => rfl
  | cons x xs ih =>
      rw [List.map_cons, popK_eq_self x _ (h x (by simp)),
        ih (fun y hy => h y (by simp [hy]))]

theorem attachHS_eqv (sols : List (String × String)) {a b : Rec}
    (h : ∀ k, getK a k = getK b k) :
    ∀ k, getK (attachHS sols a) k = getK (attachHS sols b) k := by
  intro k
  unfold attachHS
  have hid : getKD a "id" = getKD b "id" := by
    rw [getKD, getKD, h]
  rw [hid]
  by_cases hc : pyTruthy (getKD b "id") = true
  · rw [if_pos hc, if_pos hc, getK_setK, getK_setK]
    by_cases hk : k = "has_solution"
    · rw [if_pos hk, if_pos hk]
    · rw [if_neg hk, if_neg hk, h]
  · rw [if_neg hc, if_neg hc, getK_setK, getK_setK]
    by_cases hk : k = "has_solution"
    · rw [if_pos hk, if_pos hk]
    · rw [if_neg hk, if_neg hk, h]

theorem forall2_getK_refl (l : List Rec) :
    List.Forall₂ (fun a b => ∀ k, getK a k = getK b k) l l := by
  induction l with
  | nil => exact List.Forall₂.nil
  | cons x xs ih => exact List.Forall₂.cons (fun _ => rfl) ih

theorem forall2_attach (sols : List (String × String)) (l : List Rec)
    (h : ∀ x ∈ l, ∀ k, getK (normalize_record x) k = getK x k) :
    List.Forall₂ (fun a b => ∀ k, getK a k = getK b k)
      ((l.map normalize_record).map (attachHS sols))
      (l.map (attachHS sols)) := by
  induction l with
  | nil => exact List.Forall₂.nil
  | cons x xs ih =>
      exact List.Forall₂.cons (attachHS_eqv sols (h x (by simp)))
        (ih (fun y hy k => h y (by simp [hy]) k))

theorem norm_out_idem {x : Rec} (h : ∃ y, x = normalize_record y) :
    ∀ k, getK (normalize_record x) k = getK x k := by
  obtain ⟨y, rfl⟩ := h
  exact fun k => normalize_record_idem_getK y k

/-- C2 amended: the container is rewritten exactly when some record trips
the `changed` flag — a truthy legacy solution key, or a stored
`has_solution` key with non-`None` value (`changedRec`); records whose only
changes come from normalization (defaulting `solved` from `status`,
dropping `owner`, …) do not trigger a rewrite.  When no record carries more
than one truthy legacy solution key, a second load leaves the container
file byte-identical and returns records equal (as dicts) to the first
load's records. -/
theorem claim_C2_selfheal (st : Store) (items : List Rec)
    (hdf : st.dataFile = .valid items) :
    ((items.any changedRec = false → (loadStep st).1.dataFile = st.dataFile)
     ∧ (items.any changedRec = true →
        (loadStep st).1.dataFile
          = .valid ((migrateList st.solutions items).1.map
              (fun r => popK r "has_solution"))))
    ∧ ((∀ r ∈ items, atMostOneLegacy r) →
        (loadStep (loadStep st).1).1.dataFile = (loadStep st).1.dataFile
        ∧ List.Forall₂ (fun a b => ∀ k, getK a k = getK b k)
            (loadStep (loadStep st).1).2 (loadStep st).2) := by
  obtain ⟨df, bk, sols⟩ := st
  simp only at hdf
  subst hdf
  constructor
  · constructor
    · intro hflag
      show (if (migrateList sols items).2.2 = true then
          FileBytes.valid ((migrateList sols items).1.map
            (fun r => popK r "has_solution"))
        else FileBytes.valid items) = FileBytes.valid items
      rw [migrateList_changed, hflag, if_neg (by simp)]
    · intro hflag
      show (if (migrateList sols items).2.2 = true then
          FileBytes.valid ((migrateList sols items).1.map
            (fun r => popK r "has_solution"))
        else FileBytes.valid items)
        = FileBytes.valid ((migrateList sols items).1.map
            (fun r => popK r "has_solution"))
      rw [migrateList_changed, hflag, if_pos rfl]
  · intro hone
    by_cases hflag : items.any changedRec = true
    · have hm_out_clean := migrateList_out_clean sols items hone
      have hsan : (migrateList sols items).1.map
          (fun r => popK r "has_solution") = (migrateList sols items).1 :=
        map_sanitize_id _ (fun x hx => (hm_out_clean x hx).2)
      have hst1 : (loadStep ⟨.valid items, bk, sols⟩).1
          = ⟨.valid (migrateList sols items).1, bk,
             (migrateList sols items).2.1⟩ := by
        show (⟨if (migrateList sols items).2.2 = true then
            FileBytes.valid ((migrateList sols items).1.map
              (fun r => popK r "has_solution"))
          else FileBytes.valid items, bk,
          (migrateList sols items).2.1⟩ : Store) = _
        rw [migrateList_changed, hflag, if_pos rfl, hsan]
      have hm2 := migrateList_clean (migrateList sols items).2.1
        (migrateList sols items).1 hm_out_clean
      rw [hst1]
      constructor
      · show (if (migrateList (migrateList sols items).2.1
            (migrateList sols items).1).2.2 = true then
            FileBytes.valid ((migrateList (migrateList sols items).2.1
              (migrateList sols items).1).1.map
                (fun r => popK r "has_solution"))
          else FileBytes.valid (migrateList sols items).1)
          = FileBytes.valid (migrateList sols items).1
        rw [hm2]
        rfl
      · show List.Forall₂ (fun a b => ∀ k, getK a k = getK b k)
          ((migrateList (migrateList sols items).2.1
            (migrateList sols items).1).1.map
            (attachHS (migrateList (migrateList sols items).2.1
              (migrateList sols items).1).2.1))
          ((migrateList sols items).1.map
            (attachHS (migrateList sols items).2.1))
        rw [hm2]
        exact forall2_attach _ _
          (fun x hx => norm_out_idem (migrateList_out_shape sols items x hx))
    · have hf2 : items.any changedRec = false := by
        rwa [Bool.not_eq_true] at hflag
      have hnoleg : ∀ r ∈ items, findLegacy r = none := by
        intro r hr
        apply changedRec_false_legacy
        rcases hx : changedRec r
        · rfl
        · exact absurd (List.any_eq_true.mpr ⟨r, hr, hx⟩) (by rw [hf2]; simp)
      have hsols := migrateList_sols_of_none sols items hnoleg
      have hst1 : (loadStep ⟨.valid items, bk, sols⟩).1
          = ⟨.valid items, bk, sols⟩ := by
        show (⟨if (migrateList sols items).2.2 = true then
            FileBytes.valid ((migrateList sols items).1.map
              (fun r => popK r "has_solution"))
          else FileBytes.valid items, bk,
          (migrateList sols items).2.1⟩ : Store) = _
        rw [migrateList_changed, hf2, if_neg (by simp), hsols]
      constructor
      · rw [hst1]
        exact congrArg Store.dataFile hst1
      · rw [hst1]
        exact forall2_getK_refl _

/-- C2 counterexample: a record whose only migration changes are
normalization ones (here: dropping `owner` and filling defaults) changes
shape, yet `_load` leaves the container file untouched — it still holds the
raw record with `owner`. -/
theorem claim_C2_counterexample :
    (loadStep ⟨.valid [[("id", .str "x"), ("owner", .str "bob")]],
        none, []⟩).1.dataFile
      = .valid [[("id", .str "x"), ("owner", .str "bob")]]
    ∧ popK (normalize_record
        (popK [("id", .str "x"), ("owner", .str "bob")] "has_solution"))
        "has_solution"
        ≠ [("id", .str "x"), ("owner", .str "bob")] := by
  constructor
  · rfl
  · intro h
    exact absurd (congrArg List.length h) (by decide)

/-- C2 witness: a record with a stored `has_solution` key does trigger the
rewrite, and the rewritten container is stable under a second load. -/
theorem claim_C2_witness :
    (loadStep ⟨.valid [[("has_solution", .bool false), ("id", .str "x")]],
        none, []⟩).1.dataFile
      = .valid ((migrateList []
          [[("has_solution", .bool false), ("id", .str "x")]]).1.map
          (fun r => popK r "has_solution"))
    ∧ (loadStep (loadStep ⟨.valid
        [[("has_solution", .bool false), ("id", .str "x")]],
        none, []⟩).1).1.dataFile
      = (loadStep ⟨.valid [[("has_solution", .bool false),
          ("id", .str "x")]], none, []⟩).1.dataFile :=
  ⟨(claim_C2_selfheal ⟨.valid [[("has_solution", .bool false),
      ("id", .str "x")]], none, []⟩ _ rfl).1.2 rfl,
   ((claim_C2_selfheal ⟨.valid [[("has_solution", .bool false),
      ("id", .str "x")]], none, []⟩ _ rfl).2 (by
        intro r hr k1 h1 k2 h2 ht1 ht2
        simp only [List.mem_singleton] at hr
        subst hr
        simp only [legacyKeys, List.mem_cons, List.mem_singleton,
          List.not_mem_nil, or_false] at h1
        rcases h1 with rfl | rfl | rfl <;> exact absurd ht1 (by decide))).1⟩

/-- C7 (amended): the sync layer's `git_pull` issues the
`--allow-unrelated-histories` fallback at most once; when the remote is
configured (remote check exits 0) and the plain pull exits non-zero, the
fallback runs exactly once, the transcript carries the success marker when
the fallback succeeds, and carries the failure marker together with both
attempts' stdouts when the fallback also fails.  The `/api/git/pull`
handler, by contrast, never retries: its command trace is the repo check
alone, or the repo check followed by one single pull command — a failing
first attempt is never followed by a second. -/
theorem claim_C7_pull_retry (exec : GitExec)
    (url branch remote sbranch : String) :
    (gitUtilsPull exec url branch).2.count (pullRetryCmd branch) ≤ 1
    ∧ ((exec "git remote get-url origin").rc = 0 →
       (exec (pullCmd branch)).rc ≠ 0 →
       (gitUtilsPull exec url branch).2.count (pullRetryCmd branch) = 1
       ∧ ((exec (pullRetryCmd branch)).rc = 0 →
           strInfix "✓ 成功拉取远程更新" (gitUtilsPull exec url branch).1)
       ∧ ((exec (pullRetryCmd branch)).rc ≠ 0 →
           strInfix "❌ 拉取失败" (gitUtilsPull exec url branch).1
           ∧ strInfix (exec (pullCmd branch)).out
               (gitUtilsPull exec url branch).1
           ∧ strInfix (exec (pullRetryCmd branch)).out
               (gitUtilsPull exec url branch).1))
    ∧ ((serverGitPull exec remote sbranch).2
         = ["git rev-parse --is-inside-work-tree"]
       ∨ ∃ cmd, (serverGitPull exec remote sbranch).2
           = ["git rev-parse --is-inside-work-tree", cmd]) := by
  have d1 : ("git rev-parse --is-inside-work-tree"
      == pullRetryCmd branch) = false :=
    beq_eq_false_iff_ne.mpr (revparse_ne_retry branch)
  have d2 : ("git init" == pullRetryCmd branch) = false :=
    beq_eq_false_iff_ne.mpr (gitinit_ne_retry branch)
  have d3 : ("git remote get-url origin" == pullRetryCmd branch) = false :=
    beq_eq_false_iff_ne.mpr (geturl_ne_retry branch)
  have d4 : (("git remote set-url origin " ++ url)
      == pullRetryCmd branch) = false :=
    beq_eq_false_iff_ne.mpr (seturl_ne_retry url branch)
  have d5 : (("git remote add origin " ++ url)
      == pullRetryCmd branch) = false :=
    beq_eq_false_iff_ne.mpr (addurl_ne_retry url branch)
  have d6 : (pullCmd branch == pullRetryCmd branch) = false :=
    beq_eq_false_iff_ne.mpr (pullCmd_ne_retry branch)
  have hpre := gitPullPre_count exec url (pullRetryCmd branch) d1 d2 d3 d4 d5
  refine ⟨?_, ?_, ?_⟩
  · by_cases hck : (exec "git remote get-url origin").rc ≠ 0
    · rw [gitUtilsPull_early_tr exec url branch hck]
      simp [List.count_append, List.count_cons, List.count_nil, hpre, d3]
    · by_cases hp : (exec (pullCmd branch)).rc = 0
      · rw [gitUtilsPull_plain_tr exec url branch hck hp]
        simp [List.count_append, List.count_cons, List.count_nil, hpre, d3, d6]
      · rw [gitUtilsPull_retry_tr exec url branch hck hp]
        simp [List.count_append, List.count_cons, List.count_nil, hpre, d3, d6]
  · intro hck0 hp0
    have hck : ¬ (exec "git remote get-url origin").rc ≠ 0 := fun h => h hck0
    have hp : ¬ (exec (pullCmd branch)).rc = 0 := hp0
    refine ⟨?_, ?_, ?_⟩
    · rw [gitUtilsPull_retry_tr exec url branch hck hp]
      simp [List.count_append, List.count_cons, List.count_nil, hpre, d3, d6]
    · intro hr2
      rw [gitUtilsPull_retry_ok_out exec url branch hck hp hr2]
      exact strInfix_extend_left _ (⟨['\n'], [], by decide⟩ :
        strInfix "✓ 成功拉取远程更新" "\n✓ 成功拉取远程更新")
    · intro hr2
      have hr2' : ¬ (exec (pullRetryCmd branch)).rc = 0 := hr2
      rw [gitUtilsPull_retry_fail_out exec url branch hck hp hr2']
      refine ⟨?_, ?_, ?_⟩
      · exact strInfix_extend_left _ (⟨['\n'], [], by decide⟩ :
          strInfix "❌ 拉取失败" "\n❌ 拉取失败")
      · by_cases herr : (exec (pullCmd branch)).err ≠ ""
        · rw [if_pos herr]
          apply strInfix_extend_right
          apply strInfix_extend_right
          apply strInfix_extend_right
          apply strInfix_extend_right
          apply strInfix_extend_right
          apply strInfix_extend_right
          apply strInfix_extend_right
          apply strInfix_extend_right
          apply strInfix_extend_right
          exact strInfix_suffix_append _ _
        · rw [if_neg herr]
          apply strInfix_extend_right
          apply strInfix_extend_right
          apply strInfix_extend_right
          apply strInfix_extend_right
          apply strInfix_extend_right
          apply strInfix_extend_right
          exact strInfix_suffix_append _ _
      · apply strInfix_extend_right
        apply strInfix_extend_right
        exact strInfix_suffix_append _ _
  · by_cases hrepo : (!(isRepoCall exec []).1) = true
    · left
      unfold serverGitPull
      rw [if_pos hrepo]
      rfl
    · right
      refine ⟨"git pull "
        ++ shlexQuote (if pytrim remote = "" then "origin" else pytrim remote)
        ++ " "
        ++ shlexQuote (if pytrim sbranch = "" then "main" else pytrim sbranch),
        ?_⟩
      unfold serverGitPull
      rw [if_neg hrepo]
      rfl

/-- C7 counterexample: against a repository whose plain
`git pull origin main` exits non-zero, the `/api/git/pull` handler reports
failure after that single attempt — its trace is the repo check plus one
pull command with no `--allow-unrelated-histories` fallback — whereas
`git_utils.git_pull` on the same repository runs the fallback once.  The
claim's "every Pull invocation retries" is therefore false for the HTTP
pull endpoint. -/
theorem claim_C7_counterexample :
    (serverGitPull execPullFail "" "").1.1 = false
    ∧ (serverGitPull execPullFail "" "").2
        = ["git rev-parse --is-inside-work-tree", "git pull origin main"]
    ∧ (serverGitPull execPullFail "" "").2.count (pullRetryCmd "main") = 0
    ∧ (gitUtilsPull execPullFail "" "main").2.count (pullRetryCmd "main")
        = 1 := by
  refine ⟨?_, ?_, ?_, ?_⟩ <;> decide

/-- C7 witness: a configured remote with a failing plain pull makes the
sync layer's `git_pull` run the fallback exactly once and, the fallback
succeeding, report success. -/
theorem claim_C7_witness :
    (gitUtilsPull execPullFail "" "main").2.count (pullRetryCmd "main") = 1
    ∧ strInfix "✓ 成功拉取远程更新" (gitUtilsPull execPullFail "" "main").1 :=
  ⟨((claim_C7_pull_retry execPullFail "" "main" "" "").2.1 (by decide)
      (by decide)).1,
   ((claim_C7_pull_retry execPullFail "" "main" "" "").2.1 (by decide)
      (by decide)).2.1 (by decide)⟩
